import Mathlib

/-!
Verification of the chrometools-mcp scenario recorder and replay engine
against its natural-language specification.

The JavaScript sources are embedded shallowly: each JS function that a
claim refers to becomes a Lean definition of the same name, with JS
objects as Lean structures, `undefined`-able fields as `Option`, JS
arrays as `List`, and JS string/number operations as explicit helpers
whose JS semantics (truthiness, `===`, `includes`, `join`) is spelled
out below.  Machine-level caveats of the embedding are noted at each
definition.
-/

namespace Js

/-- JS `a.includes(b)` on strings: substring containment. -/
def strIncludes (s sub : String) : Bool :=
  s.data.tails.any (fun t => sub.data.isPrefixOf t)

/-- JS `String.prototype.toLowerCase`, modelled for the ASCII range
(`Char.toLower` lowercases only ASCII letters; every concrete input used
in the theorems below is ASCII, and universally quantified statements
use this same function on both sides). -/
def toLower (s : String) : String := String.mk (s.data.map Char.toLower)

/-- JS `a || b` for two possibly-undefined strings, yielding the first
truthy (defined and non-empty) one, with a final default. -/
def strOr (a b : Option String) (dflt : String) : String :=
  match a with
  | some s => if s = "" then (match b with
      | some t => if t = "" then dflt else t
      | none => dflt) else s
  | none => match b with
    | some t => if t = "" then dflt else t
    | none => dflt

/-- JS `a || b` keeping definedness: falsy (`undefined` or `""`) `a`
falls through to `b`. -/
def strOrOpt (a b : Option String) : Option String :=
  match a with
  | some s => if s = "" then b else some s
  | none => b

/-- JS `x <= bound` when `x` may be `undefined`: a comparison against
`NaN` is false. -/
def leOpt (x : Option Int) (bound : Int) : Bool :=
  match x with
  | some v => v ≤ bound
  | none => false

/-- JS `+` over possibly-undefined numbers: any `undefined` operand
poisons the sum (`NaN`, modelled as `none`). -/
def addOpt (a b : Option Int) : Option Int :=
  match a, b with
  | some x, some y => some (x + y)
  | _, _ => none

/-- JS string truthiness for an optional string. -/
def truthyStr (s : Option String) : Bool :=
  match s with
  | some v => v ≠ ""
  | none => false

/-- JS object spread-merge `{...base, ...upd}` for string maps; the
updating map wins, so it is consulted first on lookup. -/
def mergeMaps (base upd : List (String × String)) : List (String × String) :=
  upd ++ base

end Js

/-!
## recorder/action-optimizer.js

The action optimiser.  Actions are the tagged records produced by the
in-page recorder; the optimiser only reads the fields modelled here and
passes every record through structurally (JS object spread), which the
structure-update syntax mirrors.
-/

namespace ActionOptimizer

/-- One entry of a custom-select `steps` payload. -/
structure SelectStep where
  action : String
  selector : Option String := none
  duration : Option Int := none
  deriving DecidableEq, Repr

/-- `selector.elementInfo` as read by the optimiser. -/
structure ElementInfo where
  classes : List String := []
  id : Option String := none
  role : Option String := none
  text : Option String := none
  deriving DecidableEq, Repr

/-- A recorded selector record.  Actions recorded by the in-page
recorder carry `primary`; some callers instead set `value`; the
optimiser reads both fields, so both are kept. -/
structure Selector where
  value : Option String := none
  primary : Option String := none
  elementInfo : Option ElementInfo := none
  deriving DecidableEq, Repr

/-- `action.data`: the union of the kind-specific payload fields the
optimiser reads or writes.  Absent fields are `none` (JS `undefined`). -/
structure ActionData where
  text : Option String := none
  duration : Option Int := none
  isSecret : Option Bool := none
  paramName : Option String := none
  clearFirst : Option Bool := none
  value : Option String := none
  selectType : Option String := none
  steps : List SelectStep := []
  url : Option String := none
  deriving DecidableEq, Repr

/-- One recorded action. -/
structure Action where
  type : String
  selector : Option Selector := none
  data : ActionData := {}
  timestamp : Int := 0
  deriving DecidableEq, Repr

/-- JS `action.selector?.value` (both layers may be undefined). -/
def selValue (a : Action) : Option String :=
  a.selector.bind (·.value)

/-- `removeRecorderWidgetEvents`: drop actions whose selector string or
recorded classes mention the recorder widget. -/
def removeRecorderWidgetEvents (actions : List Action) : List Action :=
  actions.filter (fun action =>
    let selector := Js.strOr (action.selector.bind (·.primary))
      (action.selector.bind (·.value)) ""
    if Js.strIncludes selector "chrometools-recorder" then false
    else
      let classes := (action.selector.bind (·.elementInfo)).map (·.classes) |>.getD []
      if classes.any (fun cls => Js.strIncludes cls "chrometools-recorder") then false
      else true)

/-- JS `typeActions.map(a => a.data.text).join('')`: `Array.join`
renders an `undefined` element as the empty string. -/
def joinTexts (actions : List Action) : String :=
  String.join (actions.map (fun a => a.data.text.getD ""))

/-- The run-extension predicate of `combineSequentialTypes`:
`actions[j].type === 'type' && actions[j].selector?.value ===
action.selector?.value` (note `undefined === undefined` is true). -/
def sameTypeRun (first : Action) (b : Action) : Bool :=
  b.type = "type" && selValue b = selValue first

/-- Fueled body of `combineSequentialTypes` (the fuel only drives the
recursion; `fuel = length + 1` is enough because each step consumes at
least one list element, which `combineFuel_eq_of_le` below makes
precise). -/
def combineFuel : Nat → List Action → List Action
  | _, [] => []
  | 0, actions => actions
  | fuel + 1, action :: rest =>
    if action.type = "type" then
      let run := rest.takeWhile (sameTypeRun action)
      if run.isEmpty then
        action :: combineFuel fuel rest
      else
        let typeActions := action :: run
        let combined : Action :=
          { action with
            data := { action.data with text := some (joinTexts typeActions) }
            timestamp := (typeActions.getLastD action).timestamp }
        combined :: combineFuel fuel (rest.dropWhile (sameTypeRun action))
    else
      action :: combineFuel fuel rest

/-- `combineSequentialTypes`: collapse each maximal run of consecutive
type actions with (`===`-)equal `selector.value` into the first action
of the run carrying the concatenation of all texts and the timestamp of
the last action. -/
def combineSequentialTypes (actions : List Action) : List Action :=
  combineFuel (actions.length + 1) actions

/-- `isCustomSelectPattern`: keyword heuristic on the two click
targets; false when either `selector?.elementInfo` is absent. -/
def isCustomSelectPattern (firstClick secondClick : Action) : Bool :=
  match firstClick.selector.bind (·.elementInfo),
        secondClick.selector.bind (·.elementInfo) with
  | some first, some second =>
    let selectKeywords := ["select", "dropdown", "picker", "choice", "menu"]
    let optionKeywords := ["option", "item", "choice", "menu-item"]
    let firstText := Js.toLower (String.intercalate " "
      [String.intercalate " " first.classes, first.id.getD "", first.role.getD ""])
    let secondText := Js.toLower (String.intercalate " "
      [String.intercalate " " second.classes, second.id.getD "", second.role.getD ""])
    (selectKeywords.any (fun kw => Js.strIncludes firstText kw)) &&
      (optionKeywords.any (fun kw => Js.strIncludes secondText kw))
  | _, _ => false

/-- The rewritten select action built by `detectCustomSelects`.  The
unguarded JS accesses `firstClick.selector.value` and
`secondClick.selector.elementInfo.text` are safe because the pattern
check already required both `selector?.elementInfo` to be present. -/
def mkSelectAction (firstClick maybeWait secondClick : Action) (isWait : Bool) : Action :=
  { type := "select"
    selector := firstClick.selector
    data :=
      { value := Js.strOrOpt secondClick.data.text
          ((secondClick.selector.bind (·.elementInfo)).bind (·.text))
        selectType := some "custom"
        steps :=
          [ { action := "click", selector := firstClick.selector.bind (·.value) }
          , { action := "wait"
              duration := some ((if isWait then maybeWait.data.duration else none).getD 300) }
          , { action := "click", selector := secondClick.selector.bind (·.value) } ] }
    timestamp := secondClick.timestamp }

/-- `detectCustomSelects`: a click, any single action, then a click
matching the container/option heuristic becomes one custom select.  If
the middle action is a wait of at most one second all three are
consumed; otherwise only the first two are consumed, so the second
click is processed again (and the middle action is dropped). -/
def detectCustomSelects : List Action → List Action
  | a :: b :: c :: rest =>
    if a.type = "click" && c.type = "click" then
      let isWait := b.type = "wait" && Js.leOpt b.data.duration 1000
      if isCustomSelectPattern a c then
        let selectAction := mkSelectAction a b c isWait
        if isWait then selectAction :: detectCustomSelects rest
        else selectAction :: detectCustomSelects (c :: rest)
      else a :: detectCustomSelects (b :: c :: rest)
    else a :: detectCustomSelects (b :: c :: rest)
  | xs => xs

/-- `removeDuplicateClicks`: drop a click immediately followed by a
click on the same `selector.value` less than 500 ms later (the later
click is kept). -/
def removeDuplicateClicks : List Action → List Action
  | [] => []
  | [a] => [a]
  | a :: b :: rest =>
    if a.type = "click" && b.type = "click" && selValue b = selValue a
        && b.timestamp - a.timestamp < 500 then
      removeDuplicateClicks (b :: rest)
    else
      a :: removeDuplicateClicks (b :: rest)

/-- `waits.reduce((sum, w) => sum + w.data.duration, 0)`. -/
def sumDurations (ws : List Action) : Option Int :=
  ws.foldl (fun acc w => Js.addOpt acc w.data.duration) (some 0)

/-- Fueled body of `mergeWaits` (`fuel = length + 1` suffices, as for
`combineFuel`). -/
def mergeWaitsFuel : Nat → List Action → List Action
  | _, [] => []
  | 0, actions => actions
  | fuel + 1, action :: rest =>
    if action.type = "wait" then
      let run := rest.takeWhile (fun a => a.type = "wait")
      if run.isEmpty then
        action :: mergeWaitsFuel fuel rest
      else
        let waits := action :: run
        let merged : Action :=
          { type := "wait"
            data := { duration := sumDurations waits }
            timestamp := (waits.getLastD action).timestamp }
        merged :: mergeWaitsFuel fuel (rest.dropWhile (fun a => a.type = "wait"))
    else
      action :: mergeWaitsFuel fuel rest

/-- `mergeWaits`: collapse each maximal run of consecutive wait actions
into one wait holding the summed duration and the last timestamp. -/
def mergeWaits (actions : List Action) : List Action :=
  mergeWaitsFuel (actions.length + 1) actions

/-- `removeUnnecessaryScrolls`: drop a scroll whose next non-wait
action is also a scroll. -/
def removeUnnecessaryScrolls : List Action → List Action
  | [] => []
  | a :: rest =>
    if a.type = "scroll" then
      match (rest.dropWhile (fun x => x.type = "wait")).head? with
      | some nxt =>
        if nxt.type = "scroll" then removeUnnecessaryScrolls rest
        else a :: removeUnnecessaryScrolls rest
      | none => a :: removeUnnecessaryScrolls rest
    else
      a :: removeUnnecessaryScrolls rest

/-- Accumulator loop of `removeUnnecessaryHovers`: `prev` is the last
element pushed onto the result. -/
def removeHoversGo (acc : List Action) : List Action → List Action
  | [] => acc.reverse
  | a :: rest =>
    if a.type = "hover" then
      let skipForClick :=
        match rest.head? with
        | some nxt => nxt.type = "click" && selValue nxt = selValue a
        | none => false
      if skipForClick then removeHoversGo acc rest
      else
        let skipDup :=
          match acc.head? with
          | some prev => prev.type = "hover" && selValue prev = selValue a
          | none => false
        if skipDup then removeHoversGo acc rest
        else removeHoversGo (a :: acc) rest
    else
      removeHoversGo (a :: acc) rest

/-- `removeUnnecessaryHovers`: drop a hover immediately followed by a
click on the same `selector.value`, and a hover whose previously kept
neighbour is a hover on the same `selector.value`. -/
def removeUnnecessaryHovers (actions : List Action) : List Action :=
  removeHoversGo [] actions

/-- `optimizeActions`: the fixed pass pipeline. -/
def optimizeActions (actions : List Action) : List Action :=
  if actions.isEmpty then []
  else
    let optimized := actions
    let optimized := removeRecorderWidgetEvents optimized
    let optimized := combineSequentialTypes optimized
    let optimized := detectCustomSelects optimized
    let optimized := removeDuplicateClicks optimized
    let optimized := mergeWaits optimized
    let optimized := removeUnnecessaryScrolls optimized
    let optimized := removeUnnecessaryHovers optimized
    optimized

end ActionOptimizer

/-!
## recorder/secret-detector.js (detection half)

Context-aware secret detection.  The multilingual keyword lists are
copied verbatim; `toLowerCase` is modelled on the ASCII range (see
`Js.toLower`), which agrees with JS on every ASCII input and leaves the
non-ASCII keyword entries as-is on both sides of each theorem.
-/

namespace SecretDetector

/-- One entry of `formInfo.fields`. -/
structure FieldInfo where
  type : Option String := none
  name : Option String := none
  deriving DecidableEq, Repr

/-- `formInfo` as consumed by `isAuthenticationForm` and
`detectFieldType`. -/
structure FormInfo where
  id : Option String := none
  action : Option String := none
  classes : Option (List String) := none
  ariaLabel : Option String := none
  title : Option String := none
  fields : Option (List FieldInfo) := none
  deriving DecidableEq, Repr

/-- `elementInfo` as consumed by `detectFieldType`. -/
structure ElementInfo where
  type : Option String := none
  name : Option String := none
  id : Option String := none
  placeholder : Option String := none
  ariaLabel : Option String := none
  autocomplete : Option String := none
  maxLength : Option Int := none
  deriving DecidableEq, Repr

/-- The `AUTH_FORM_KEYWORDS` table (login/register/forgot/verify). -/
def AUTH_FORM_KEYWORDS : List (List String) :=
  [ ["login", "log in", "sign in", "signin", "войти", "вход", "авторизация",
     "entrar", "connexion", "anmelden"]
  , ["register", "sign up", "signup", "регистрация", "создать аккаунт",
     "registro", "inscription", "registrieren"]
  , ["forgot", "reset", "restore", "recovery", "забыли", "восстановление",
     "olvidé", "oublié", "vergessen"]
  , ["verify", "verification", "confirm", "code", "подтверждение",
     "verificación", "vérification", "bestätigung"] ]

/-- The `verify` row of the table, used by the OTP branch. -/
def verifyKeywords : List String :=
  ["verify", "verification", "confirm", "code", "подтверждение",
   "verificación", "vérification", "bestätigung"]

/-- `matchesKeywords(text, keywords)`. -/
def matchesKeywords (text : String) (keywords : List String) : Bool :=
  keywords.any (fun keyword => Js.strIncludes text (Js.toLower keyword))

/-- `isAuthenticationForm`: keyword match on the joined descriptors, or
a field whose type is `password` or whose name contains `password` or
`pass`. -/
def isAuthenticationForm (formInfo : Option FormInfo) : Bool :=
  match formInfo with
  | none => false
  | some f =>
    let searchText := Js.toLower (String.intercalate " "
      [ f.id.getD "", f.action.getD "",
        (f.classes.map (String.intercalate " ")).getD "",
        f.ariaLabel.getD "", f.title.getD "" ])
    let isAuth := AUTH_FORM_KEYWORDS.any (fun keywords =>
      keywords.any (fun keyword => Js.strIncludes searchText (Js.toLower keyword)))
    let hasPasswordField :=
      match f.fields with
      | none => false
      | some fields => fields.any (fun field =>
          field.type = some "password"
            || (match field.name with
                | some n => Js.strIncludes n "password" || Js.strIncludes n "pass"
                | none => false))
    isAuth || hasPasswordField

/-- The five `SECRET_FIELD_TYPES` values in the priority order of
`detectFieldType`. -/
def secretFieldPriority : List String :=
  ["password", "email", "phone", "otp", "token"]

/-- `[name, id, placeholder, ariaLabel, autocomplete].join(' ')`
lowercased (JS `Array.join` renders `undefined` as the empty string). -/
def elementSearchText (e : ElementInfo) : String :=
  Js.toLower (String.intercalate " "
    [ e.name.getD "", e.id.getD "", e.placeholder.getD "",
      e.ariaLabel.getD "", e.autocomplete.getD "" ])

/-- The password keyword list of `detectFieldType`. -/
def passwordKeywords : List String :=
  ["password", "passwd", "pwd", "пароль", "contraseña", "mot de passe", "passwort"]

/-- The email keyword list of `detectFieldType`. -/
def emailKeywords : List String :=
  ["email", "e-mail", "mail", "почта", "correo", "courriel"]

/-- The phone keyword list of `detectFieldType`. -/
def phoneKeywords : List String :=
  ["phone", "mobile", "tel", "телефон", "teléfono", "téléphone"]

/-- The OTP keyword list of `detectFieldType`. -/
def otpKeywords : List String :=
  ["otp", "code", "verification", "verify", "token", "код",
   "подтверждение", "código", "vérification"]

/-- The token keyword list of `detectFieldType`. -/
def tokenKeywords : List String :=
  ["token", "apikey", "api_key", "secret", "ключ", "секрет"]

/-- The OTP length gate: `maxLength && maxLength >= 4 && maxLength <= 8`
(zero is falsy). -/
def otpMaxLengthOk (elementInfo : ElementInfo) : Bool :=
  match elementInfo.maxLength with
  | some m => m ≠ 0 && 4 ≤ m && m ≤ 8
  | none => false

/-- The verification-form check of the OTP branch. -/
def isVerifyForm (formInfo : Option FormInfo) : Bool :=
  match formInfo with
  | none => false
  | some f => verifyKeywords.any (fun keyword =>
      Js.strIncludes (Js.toLower (f.id.getD "")) keyword
        || Js.strIncludes (Js.toLower (f.action.getD "")) keyword)

/-- `detectFieldType`: the if-chain assigning a secret kind. -/
def detectFieldType (elementInfo : ElementInfo) (formInfo : Option FormInfo) :
    Option String :=
  let searchText := elementSearchText elementInfo
  if elementInfo.type = some "password" then some "password"
  else if matchesKeywords searchText passwordKeywords then some "password"
  else if elementInfo.type = some "email" then some "email"
  else if matchesKeywords searchText emailKeywords then some "email"
  else if elementInfo.type = some "tel" then some "phone"
  else if matchesKeywords searchText phoneKeywords then some "phone"
  else
    let otpKeyword := matchesKeywords searchText otpKeywords
    if otpKeyword && otpMaxLengthOk elementInfo then some "otp"
    else if otpKeyword && isVerifyForm formInfo then some "otp"
    else if matchesKeywords searchText tokenKeywords then some "token"
    else none

/-- Result record of `detectSecretField` (the `reason` strings are not
claim-relevant and are omitted). -/
structure SecretDetection where
  isSecret : Bool
  fieldType : Option String
  deriving DecidableEq, Repr

/-- `detectSecretField`: gate on the authentication form, then detect
the kind. -/
def detectSecretField (elementInfo : ElementInfo) (formInfo : Option FormInfo) :
    SecretDetection :=
  if !isAuthenticationForm formInfo then
    { isSecret := false, fieldType := none }
  else
    let detection := detectFieldType elementInfo formInfo
    { isSecret := detection.isSome, fieldType := detection }

/-- Per-kind criterion, read off the branch conditions of
`detectFieldType`, used to state that the detected kind is the first
kind (in `secretFieldPriority` order) whose criterion holds. -/
def kindCriterion (elementInfo : ElementInfo) (formInfo : Option FormInfo)
    (kind : String) : Bool :=
  let searchText := elementSearchText elementInfo
  if kind = "password" then
    elementInfo.type = some "password" || matchesKeywords searchText passwordKeywords
  else if kind = "email" then
    elementInfo.type = some "email" || matchesKeywords searchText emailKeywords
  else if kind = "phone" then
    elementInfo.type = some "tel" || matchesKeywords searchText phoneKeywords
  else if kind = "otp" then
    matchesKeywords searchText otpKeywords
      && (otpMaxLengthOk elementInfo || isVerifyForm formInfo)
  else if kind = "token" then
    matchesKeywords searchText tokenKeywords
  else false

/-- The authentication-form notion used verbatim by claim C9: no
authentication keyword in the descriptor fields and no
password-TYPE input among the fields.  (Stated from the words of the
specification, for comparison with the weaker gate the code applies.) -/
def specNonAuthForm (f : FormInfo) : Bool :=
  let searchText := Js.toLower (String.intercalate " "
    [ f.id.getD "", f.action.getD "",
      (f.classes.map (String.intercalate " ")).getD "",
      f.ariaLabel.getD "", f.title.getD "" ])
  (!AUTH_FORM_KEYWORDS.any (fun keywords =>
      keywords.any (fun keyword => Js.strIncludes searchText (Js.toLower keyword))))
    && (!(f.fields.getD []).any (fun field => field.type = some "password"))

end SecretDetector

/-!
## recorder/scenario-storage.js

Scenario and secrets persistence.  The filesystem is modelled as an
explicit `Storage` state: the scenarios directory and secrets directory
become name-keyed association lists (newest entry first, as
`fs.writeFile` replaces the whole file), `index.json` becomes an
optional association list (`none` = file absent), and the `.gitignore`
sentinel a flag.  `JSON.parse ∘ JSON.stringify` round-trips documents
verbatim, so file contents are stored structurally.  A scenario
document is modelled with the canonical fields plus an `extra`
association list standing for any unknown fields of the input object;
`saveScenario` builds the stored document from the canonical fields
only, which is what claim C3 is about.
-/

namespace ScenarioStorage

/-- A dependency-edge guard (`condition` of a dependency entry). -/
structure Cond where
  check : Option String := none
  skipIf : Bool := false
  key : Option String := none
  pattern : Option String := none
  selector : Option String := none
  varName : Option String := none
  deriving DecidableEq, Repr

/-- A dependency entry: either a bare scenario name or an object with a
`scenario` field (the JS field named `variable` is rendered `varName`
above because `variable` is reserved in Lean). -/
inductive DepEntry where
  | str (s : String)
  | obj (scenario : Option String) (optional : Bool) (condition : Option Cond)
    (parameters : List (String × String))
  deriving DecidableEq, Repr

/-- `dep.scenario` under JS semantics: reading `.scenario` off a string
primitive yields `undefined`. -/
def depScenario : DepEntry → Option String
  | .str _ => none
  | .obj scenario _ _ _ => scenario

/-- `dep.optional` under JS semantics (undefined on a bare string). -/
def depOptional : DepEntry → Bool
  | .str _ => false
  | .obj _ optional _ _ => optional

/-- `dep.condition` under JS semantics (undefined on a bare string). -/
def depCondition : DepEntry → Option Cond
  | .str _ => none
  | .obj _ _ condition _ => condition

/-- The name the resolver extracts:
`typeof dep === 'string' ? dep : dep.scenario`. -/
def depName : DepEntry → Option String
  | .str s => some s
  | .obj scenario _ _ _ => scenario

/-- One parameter declaration (`metadata.parameters` values; the JS
field named `default` is rendered `defaultValue`). -/
structure ParamDef where
  type : Option String := none
  required : Bool := false
  defaultValue : Option String := none
  description : Option String := none
  deriving DecidableEq, Repr

/-- `metadata` of a scenario. -/
structure Metadata where
  description : Option String := none
  tags : List String := []
  entryUrl : Option String := none
  exitUrl : Option String := none
  parameters : List (String × ParamDef) := []
  outputs : List String := []
  dependencies : List DepEntry := []
  deriving DecidableEq, Repr

/-- One entry of `index.json`, as written by `updateIndex`. -/
structure IndexEntry where
  name : String
  description : String := ""
  tags : List String := []
  dependencies : List DepEntry := []
  parameters : List (String × ParamDef) := []
  outputs : List String := []
  createdAt : String := ""
  updatedAt : String := ""
  deriving DecidableEq, Repr

/-- A scenario document (an input to `saveScenario` or the parsed
content of a scenario file).  `extra` models fields outside the
canonical schema. -/
structure ScenarioDoc where
  name : Option String := none
  metadata : Option Metadata := none
  chain : Option (List ActionOptimizer.Action) := none
  secrets : Option (List (String × String)) := none
  version : Option String := none
  createdAt : Option String := none
  extra : List (String × String) := []
  deriving DecidableEq, Repr

/-- The modelled filesystem state. -/
structure Storage where
  scenarioFiles : List (String × ScenarioDoc) := []
  secretFiles : List (String × List (String × String)) := []
  indexFile : Option (List (String × IndexEntry)) := none
  gitignore : Bool := false
  deriving DecidableEq, Repr

/-- Result record of `saveScenario` (the `path` field is omitted). -/
structure SaveResult where
  success : Bool
  error : Option String := none
  deriving DecidableEq, Repr

/-- `initializeStorage` (renamed: the JS name contains a word the
verification toolchain reserves): ensures both directories, the
`.gitignore` sentinel, and an index file. -/
def initStorage (st : Storage) : Storage :=
  { st with
    gitignore := true
    indexFile := some (st.indexFile.getD []) }

/-- `updateIndex`: rewrite the index entry for `scenarioName`,
preserving a previous truthy `createdAt`. -/
def updateIndex (scenarioName : String) (metadata : Metadata) (now : String)
    (st : Storage) : Storage :=
  let index := st.indexFile.getD []
  let entry : IndexEntry :=
    { name := scenarioName
      description := metadata.description.getD ""
      tags := metadata.tags
      dependencies := metadata.dependencies
      parameters := metadata.parameters
      outputs := metadata.outputs
      createdAt := Js.strOr ((index.lookup scenarioName).map (·.createdAt)) none now
      updatedAt := now }
  { st with
    indexFile := some ((scenarioName, entry) :: index.filter (fun p => p.1 ≠ scenarioName)) }

/-- `saveScenario`.  Validation only requires `name` and `chain` to be
truthy (a JS array, even empty, is truthy).  When `metadata` is absent
the scenario file is still written but `updateIndex` throws reading
`metadata.description`, and the outer catch turns that into a failure
result; `now` stands for `new Date().toISOString()`. -/
def saveScenario (scenario : ScenarioDoc) (now : String) (st : Storage) :
    SaveResult × Storage :=
  let st1 := initStorage st
  if !Js.truthyStr scenario.name || scenario.chain = none then
    ({ success := false, error := some "Scenario must have name and chain" }, st1)
  else
    let name := scenario.name.getD ""
    let scenarioData : ScenarioDoc :=
      { name := scenario.name
        metadata := some (scenario.metadata.getD {})
        chain := scenario.chain
        version := some "1.0"
        createdAt := some now
        secrets := none
        extra := [] }
    let st2 := { st1 with scenarioFiles := (name, scenarioData) :: st1.scenarioFiles }
    let st3 :=
      if scenario.secrets.getD [] ≠ [] then
        { st2 with secretFiles := (name, scenario.secrets.getD []) :: st2.secretFiles }
      else st2
    match scenario.metadata with
    | none =>
      ({ success := false
         error := some "Cannot read properties of undefined" }, st3)
    | some metadata =>
      ({ success := true }, updateIndex name metadata now st3)

/-- `loadSecrets`: read and parse the secrets file, `null` if absent. -/
def loadSecrets (st : Storage) (scenarioName : String) :
    Option (List (String × String)) :=
  st.secretFiles.lookup scenarioName

/-- `loadScenario`: parse the scenario file; optionally merge truthy
secrets into the document. -/
def loadScenario (st : Storage) (name : String) (includeSecrets : Bool) :
    Option ScenarioDoc :=
  match st.scenarioFiles.lookup name with
  | none => none
  | some scenario =>
    if includeSecrets then
      match loadSecrets st name with
      | some secrets => some { scenario with secrets := some secrets }
      | none => some scenario
    else some scenario

/-- `loadIndex`: parse `index.json`, `{}` if absent. -/
def loadIndex (st : Storage) : List (String × IndexEntry) :=
  st.indexFile.getD []

/-- A search query (`query.dependencies` is the `depends_on` input of
the tool surface). -/
structure SearchQuery where
  tags : Option (List String) := none
  text : Option String := none
  dependencies : Option String := none
  deriving DecidableEq, Repr

/-- The tag criterion of `searchScenarios`. -/
def tagMatch (qtags : List String) (s : IndexEntry) : Bool :=
  qtags.any (fun tag => s.tags.contains tag)

/-- The text criterion of `searchScenarios`. -/
def textMatch (text : String) (s : IndexEntry) : Bool :=
  let textLower := Js.toLower text
  Js.strIncludes (Js.toLower s.name) textLower
    || Js.strIncludes (Js.toLower s.description) textLower

/-- The dependency criterion of `searchScenarios`. -/
def depMatch (d : String) (s : IndexEntry) : Bool :=
  s.dependencies.any (fun dep => depScenario dep = some d)

/-- `searchScenarios`: successive narrowing filters, one per supplied
criterion. -/
def searchScenarios (index : List (String × IndexEntry)) (query : SearchQuery) :
    List IndexEntry :=
  let scenarios := index.map (·.2)
  let results := scenarios
  let results :=
    match query.tags with
    | some qtags => if qtags ≠ [] then results.filter (tagMatch qtags) else results
    | none => results
  let results :=
    match query.text with
    | some t => if t ≠ "" then results.filter (textMatch t) else results
    | none => results
  let results :=
    match query.dependencies with
    | some d => if d ≠ "" then results.filter (depMatch d) else results
    | none => results
  results

/-- The union-of-matches search stated by the specification (a scenario
is returned when it matches ANY supplied criterion), for comparison
with `searchScenarios`. -/
def specSearchScenariosUnion (index : List (String × IndexEntry))
    (query : SearchQuery) : List IndexEntry :=
  (index.map (·.2)).filter (fun s =>
    (match query.tags with
     | some qtags => qtags ≠ [] && tagMatch qtags s
     | none => false)
    || (match query.text with
        | some t => t ≠ "" && textMatch t s
        | none => false)
    || (match query.dependencies with
        | some d => d ≠ "" && depMatch d s
        | none => false))

end ScenarioStorage

/-!
## recorder/scenario-executor.js — substituteParameters

Parameter substitution over a JSON-shaped action.  `action.data` is
modelled as an association list of JSON values so that the claim about
nested payload fields is expressible.  `substituteString` implements
the global regex replace of `/\{\{(\w+)\}\}/g`: scanning left to right,
a match is two opening braces, a maximal nonempty run of word
characters, then two closing braces; a defined parameter is inserted
and an undefined one leaves the match verbatim.
-/

namespace ParamSubstitution

/-- A JSON value. -/
inductive JVal where
  | str (s : String)
  | num (n : Int)
  | jbool (b : Bool)
  | jnull
  | arr (elems : List JVal)
  | obj (fields : List (String × JVal))

/-- An action as seen by `substituteParameters`: the fields other than
`data` are opaque to it (the JSON deep copy reproduces them verbatim). -/
structure SAction where
  type : String
  selector : Option JVal := none
  data : Option (List (String × JVal)) := none
  timestamp : Int := 0

/-- JS `\w`. -/
def isWordChar (c : Char) : Bool :=
  c.isAlphanum || c = '_'

/-- Fueled character-level scanner of the global replace
(`fuel = length + 1` suffices: every step consumes at least one input
character). -/
def substCharsFuel (params : List (String × String)) : Nat → List Char → List Char
  | _, [] => []
  | 0, cs => cs
  | fuel + 1, '\x7b' :: '\x7b' :: rest =>
    let run := rest.takeWhile isWordChar
    let rest2 := rest.dropWhile isWordChar
    if !run.isEmpty && rest2.take 2 = ['\x7d', '\x7d'] then
      (match params.lookup (String.mk run) with
       | some v => v.data
       | none => '\x7b' :: '\x7b' :: (run ++ ['\x7d', '\x7d']))
        ++ substCharsFuel params fuel (rest2.drop 2)
    else
      '\x7b' :: substCharsFuel params fuel ('\x7b' :: rest)
  | fuel + 1, c :: rest => c :: substCharsFuel params fuel rest

/-- Character-level scanner of the global replace. -/
def substChars (params : List (String × String)) (cs : List Char) : List Char :=
  substCharsFuel params (cs.length + 1) cs

/-- `substituteString`. -/
def substituteString (str : String) (params : List (String × String)) : String :=
  String.mk (substChars params str.data)

/-- `substituteParameters`: deep copy (the identity, here), then
replace placeholders in the string-valued top-level entries of
`data` only. -/
def substituteParameters (action : SAction) (params : List (String × String)) :
    SAction :=
  match action.data with
  | none => action
  | some entries =>
    { action with
      data := some (entries.map (fun kv =>
        match kv.2 with
        | .str s => (kv.1, JVal.str (substituteString s params))
        | v => (kv.1, v))) }

mutual

/-- Deep substitution as worded by the specification (every `{{name}}`
inside every string field, nested payloads included), for comparison
with `substituteParameters`. -/
def specDeepSubst (params : List (String × String)) : JVal → JVal
  | .str s => .str (substituteString s params)
  | .num n => .num n
  | .jbool b => .jbool b
  | .jnull => .jnull
  | .arr elems => .arr (specDeepSubstList params elems)
  | .obj fields => .obj (specDeepSubstFields params fields)

/-- Deep substitution over an array payload. -/
def specDeepSubstList (params : List (String × String)) : List JVal → List JVal
  | [] => []
  | v :: vs => specDeepSubst params v :: specDeepSubstList params vs

/-- Deep substitution over the fields of an object payload. -/
def specDeepSubstFields (params : List (String × String)) :
    List (String × JVal) → List (String × JVal)
  | [] => []
  | (k, v) :: kvs => (k, specDeepSubst params v) :: specDeepSubstFields params kvs

end

/-- The specification-worded substitution applied to a whole action. -/
def specSubstituteParametersDeep (action : SAction)
    (params : List (String × String)) : SAction :=
  { action with
    data := action.data.map (fun entries =>
      entries.map (fun kv => (kv.1, specDeepSubst params kv.2))) }

end ParamSubstitution

/-!
## utils/selector-generator.js

Selector synthesis from a recorded element snapshot.  `CSS.escape` is
modelled by the CSSOM serialization algorithm restricted to the code
points the development needs (identifier characters, digits, ASCII
punctuation); the selector strings the generator emits are interpreted
against a document model by a small matcher for the compound-selector
fragment the generator uses, so that uniqueness of a selector in a
document is expressible.
-/

namespace SelectorGenerator

/-- The element snapshot handed to `generateSelector`. -/
structure ElementInfo where
  tagName : String
  id : Option String := none
  classes : Option (List String) := none
  name : Option String := none
  type : Option String := none
  role : Option String := none
  ariaLabel : Option String := none
  placeholder : Option String := none
  dataTestId : Option String := none
  dataTest : Option String := none
  text : Option String := none
  parentSelector : Option String := none
  nthChild : Option Int := none
  nthOfType : Option Int := none
  deriving DecidableEq, Repr

/-- Hexadecimal rendering of a code point, as used by `CSS.escape`. -/
def hexOf (n : Nat) : String :=
  String.mk (Nat.toDigits 16 n)

/-- An ASCII digit, by code point. -/
def isDigitCp (c : Char) : Bool :=
  48 ≤ c.toNat && c.toNat ≤ 57

/-- An ASCII letter, by code point. -/
def isAlphaCp (c : Char) : Bool :=
  (65 ≤ c.toNat && c.toNat ≤ 90) || (97 ≤ c.toNat && c.toNat ≤ 122)

/-- One step of the `CSS.escape` serialization: `first` is the first
character of the whole string, `n` its length, `i` the index of `c`. -/
def cssEscapeChar (first : Option Char) (n : Nat) (i : Nat) (c : Char) : String :=
  if c.toNat = 0 then "�"
  else if (1 ≤ c.toNat && c.toNat ≤ 0x1f) || c.toNat = 0x7f then
    "\\" ++ hexOf c.toNat ++ " "
  else if i = 0 && isDigitCp c then "\\" ++ hexOf c.toNat ++ " "
  else if i = 1 && isDigitCp c && first = some '-' then
    "\\" ++ hexOf c.toNat ++ " "
  else if i = 0 && c = '-' && n = 1 then "\\-"
  else if 0x80 ≤ c.toNat || c = '-' || c = '_' || isDigitCp c || isAlphaCp c then
    String.singleton c
  else "\\" ++ String.singleton c

/-- Index-tracking loop of `CSS.escape`. -/
def cssEscapeGo (first : Option Char) (n : Nat) : Nat → List Char → String
  | _, [] => ""
  | i, c :: rest => cssEscapeChar first n i c ++ cssEscapeGo first n (i + 1) rest

/-- `CSS.escape`. -/
def cssEscape (value : String) : String :=
  cssEscapeGo value.data.head? value.data.length 0 value.data

/-- Does the string contain a run of at least four digits
(`/\d{4,}/`)? -/
def hasFourDigitRun (s : String) : Bool :=
  (s.data.tails.any (fun t => (t.takeWhile Char.isDigit).length ≥ 4))

/-- Does the string start with a digit (`/^[0-9]/`)? -/
def startsWithDigit (s : String) : Bool :=
  match s.data.head? with
  | some c => isDigitCp c
  | none => false

/-- `generateUniqueAttributeSelector`: tag plus the present subset of
type/role/aria-label/placeholder, only when at least one attribute is
present. -/
def generateUniqueAttributeSelector (e : ElementInfo) : Option String :=
  let parts := [Js.toLower e.tagName]
  let parts := parts ++ (if Js.truthyStr e.type then
    ["[type=\"" ++ cssEscape (e.type.getD "") ++ "\"]"] else [])
  let parts := parts ++ (if Js.truthyStr e.role then
    ["[role=\"" ++ cssEscape (e.role.getD "") ++ "\"]"] else [])
  let parts := parts ++ (if Js.truthyStr e.ariaLabel then
    ["[aria-label=\"" ++ cssEscape (e.ariaLabel.getD "") ++ "\"]"] else [])
  let parts := parts ++ (if Js.truthyStr e.placeholder then
    ["[placeholder=\"" ++ cssEscape (e.placeholder.getD "") ++ "\"]"] else [])
  if parts.length ≥ 2 then some (String.join parts) else none

/-- The stable-class filter of `generateClassSelector`. -/
def isStableClass (cls : String) : Bool :=
  !hasFourDigitRun cls && cls.length ≥ 2
    && !(["active", "visible", "hidden", "open", "closed"].contains cls)

/-- `generateClassSelector`: tag plus up to three stable classes. -/
def generateClassSelector (e : ElementInfo) : Option String :=
  match e.classes with
  | none => none
  | some classes =>
    if classes.isEmpty then none
    else
      let stableClasses := classes.filter isStableClass
      if stableClasses.isEmpty then none
      else
        let classString := String.join ((stableClasses.take 3).map
          (fun cls => "." ++ cssEscape cls))
        some (Js.toLower e.tagName ++ classString)

/-- `generatePositionSelector`. -/
def generatePositionSelector (e : ElementInfo) : String :=
  if !Js.truthyStr e.parentSelector then Js.toLower e.tagName
  else
    let parent := e.parentSelector.getD ""
    match e.nthOfType with
    | some k => parent ++ " > " ++ Js.toLower e.tagName ++ ":nth-of-type(" ++ toString k ++ ")"
    | none =>
      match e.nthChild with
      | some k => parent ++ " > " ++ Js.toLower e.tagName ++ ":nth-child(" ++ toString k ++ ")"
      | none => parent ++ " > " ++ Js.toLower e.tagName

/-- The result record of `generateSelector`. -/
structure SelectorRecord where
  primary : String
  fallbacks : List String
  deriving DecidableEq, Repr

/-- The candidate list of `generateSelector`, in its fixed priority
order (id, attribute combination, data-testid, data-test, name, stable
classes, position). -/
def selectorCandidates (e : ElementInfo) : List String :=
  let selectors : List String := []
  let selectors := selectors ++
    (if Js.truthyStr e.id && !startsWithDigit (e.id.getD "") then
      ["#" ++ cssEscape (e.id.getD "")] else [])
  let selectors := selectors ++
    (match generateUniqueAttributeSelector e with
     | some s => [s]
     | none => [])
  let selectors := selectors ++
    (if Js.truthyStr e.dataTestId then
      ["[data-testid=\"" ++ cssEscape (e.dataTestId.getD "") ++ "\"]"] else [])
  let selectors := selectors ++
    (if Js.truthyStr e.dataTest then
      ["[data-test=\"" ++ cssEscape (e.dataTest.getD "") ++ "\"]"] else [])
  let selectors := selectors ++
    (if Js.truthyStr e.name then
      [e.tagName ++ "[name=\"" ++ cssEscape (e.name.getD "") ++ "\"]"] else [])
  let selectors := selectors ++
    (match generateClassSelector e with
     | some s => [s]
     | none => [])
  let selectors := selectors ++
    (let positionSelector := generatePositionSelector e
     if positionSelector ≠ "" then [positionSelector] else [])
  selectors

/-- `generateSelector`: first candidate becomes `primary` (falling
back to the position selector when the list is empty), the rest become
`fallbacks`.  No candidate is checked against any document. -/
def generateSelector (e : ElementInfo) : SelectorRecord :=
  let selectors := selectorCandidates e
  { primary := Js.strOr selectors.head? none (generatePositionSelector e)
    fallbacks := selectors.drop 1 }

/-- A document node for interpreting selectors (a flat document is
enough for the compound selectors this development queries). -/
structure DomElement where
  tag : String
  id : Option String := none
  classes : List String := []
  attrs : List (String × String) := []
  deriving DecidableEq, Repr

/-- Characters of CSS identifiers as emitted unescaped. -/
def isSelNameChar (c : Char) : Bool :=
  isAlphaCp c || isDigitCp c || c = '-' || c = '_'

/-- Structured form of a compound selector. -/
structure CompoundSel where
  tag : Option String := none
  id : Option String := none
  classes : List String := []
  attrs : List (String × String) := []
  deriving DecidableEq, Repr

/-- Fueled parser for the simple-selector suffixes (`#id`, `.class`,
`[key="value"]`) of a compound selector (`fuel = length + 1`
suffices: every step consumes at least one input character). -/
def parseSimplesFuel : Nat → List Char → CompoundSel → Option CompoundSel
  | _, [], acc => some acc
  | 0, _, _ => none
  | fuel + 1, '#' :: rest, acc =>
    let run := rest.takeWhile isSelNameChar
    if run.isEmpty then none
    else parseSimplesFuel fuel (rest.dropWhile isSelNameChar)
      { acc with id := some (String.mk run) }
  | fuel + 1, '.' :: rest, acc =>
    let run := rest.takeWhile isSelNameChar
    if run.isEmpty then none
    else parseSimplesFuel fuel (rest.dropWhile isSelNameChar)
      { acc with classes := acc.classes ++ [String.mk run] }
  | fuel + 1, '[' :: rest, acc =>
    let key := rest.takeWhile isSelNameChar
    let r1 := rest.dropWhile isSelNameChar
    if r1.take 2 = ['=', '"'] then
      let r2 := r1.drop 2
      let v := r2.takeWhile (fun c => c ≠ '"')
      let r3 := r2.dropWhile (fun c => c ≠ '"')
      if r3.take 2 = ['"', ']'] then
        if key.isEmpty then none
        else parseSimplesFuel fuel (r3.drop 2)
          { acc with attrs := acc.attrs ++ [(String.mk key, String.mk v)] }
      else none
    else none
  | _, _, _ => none

/-- A tag-name character. -/
def isTagChar (c : Char) : Bool :=
  isAlphaCp c || isDigitCp c || c = '-'

/-- Parse a compound selector (optional tag, then simple suffixes). -/
def parseCompound (s : String) : Option CompoundSel :=
  let cs := s.data
  let tagRun := cs.takeWhile isTagChar
  let rest := cs.dropWhile isTagChar
  parseSimplesFuel (rest.length + 1) rest
    { tag := if tagRun.isEmpty then none else some (String.mk tagRun) }

/-- Does a document node match a parsed compound selector? -/
def elemMatches (e : DomElement) (p : CompoundSel) : Bool :=
  (match p.tag with | some t => e.tag = t | none => true)
    && (match p.id with | some i => e.id = some i | none => true)
    && p.classes.all (fun c => e.classes.contains c)
    && p.attrs.all (fun kv => e.attrs.lookup kv.1 = some kv.2)

/-- `document.querySelectorAll` over the flat document model (an
unparsable selector throws in the browser and is modelled as matching
nothing). -/
def querySelectorAll (doc : List DomElement) (sel : String) : List DomElement :=
  match parseCompound sel with
  | some p => doc.filter (fun e => elemMatches e p)
  | none => []

end SelectorGenerator

/-!
## recorder/dependency-resolver.js

Dependency-graph construction, cycle detection and topological
ordering.  The two mutually stateful DFS routines are embedded with an
explicit fuel argument; every theorem below either evaluates them on a
concrete input (where the recursion visibly terminates) or carries a
proof that the chosen fuel is never exhausted.  The JS `throw` raised
by `visit` when a dependency name is missing from the index (reading
`scenario.dependencies` off `undefined`) is modelled with `Except`.
-/

namespace DependencyResolver

open ScenarioStorage

/-- A thrown JS exception. -/
inductive JsErr where
  | typeError
  deriving DecidableEq, Repr

/-- `Array.prototype.indexOf`: −1 when absent. -/
def jsIndexOf (l : List String) (a : String) : Int :=
  match l.indexOf? a with
  | some n => (n : Int)
  | none => -1

/-- `Array.prototype.slice(start)` with a possibly negative start. -/
def jsSlice (l : List String) (start : Int) : List String :=
  let s : Int := if start < 0 then (l.length : Int) + start else start
  l.drop (max s 0).toNat

/-- `buildDependencyGraph`: one adjacency entry per index entry,
keeping the truthy dependency names. -/
def buildDependencyGraph (index : List (String × IndexEntry)) :
    List (String × List String) :=
  index.map (fun p =>
    (p.1, p.2.dependencies.filterMap (fun dep =>
      match depName dep with
      | some s => if s ≠ "" then some s else none
      | none => none)))

/-- The mutable state of the cycle-detection DFS. -/
structure DfsState where
  visiting : List String := []
  visited : List String := []
  cycles : List (List String) := []
  deriving DecidableEq, Repr

/-- The recursive `dfs` of `detectCycles`.  A node already on the
recursion stack records the path suffix from its first occurrence as a
cycle; a completed node is skipped; otherwise the node is pushed on the
stack, its graph-resident dependencies are explored, and the node is
moved to `visited`. -/
def dfsDetect (graph : List (String × List String)) :
    Nat → String → List String → DfsState → DfsState
  | 0, _, _, s => s
  | fuel + 1, node, path, s =>
    if s.visiting.contains node then
      { s with cycles := s.cycles ++ [jsSlice path (jsIndexOf path node) ++ [node]] }
    else if s.visited.contains node then s
    else
      let s1 := { s with visiting := s.visiting ++ [node] }
      let path1 := path ++ [node]
      let deps := (graph.lookup node).getD []
      let s2 := deps.foldl (fun acc dep =>
        if (graph.lookup dep).isSome then dfsDetect graph fuel dep path1 acc
        else acc) s1
      { s2 with visiting := s2.visiting.erase node, visited := s2.visited ++ [node] }

/-- `detectCycles`.  The fuel `graph.length + 1` dominates the DFS
depth: each nested frame pushes a distinct graph key onto `visiting`
(proved with the theorems below). -/
def detectCycles (graph : List (String × List String)) (startNode : String) :
    List (List String) :=
  (dfsDetect graph (graph.length + 1) startNode [] {}).cycles

/-- Fuel bound for `visit`: every name ever visited is the root or one
of the dependency names, and each frame marks its name visited before
recursing. -/
def visitFuelBound (index : List (String × IndexEntry)) : Nat :=
  2 + index.length + (index.map (fun p => p.2.dependencies.length)).sum

/-- The recursive `visit` of the topological sort: mark the name
visited, recurse into its (possibly condition-skipped) dependencies,
then append the name to the chain.  Reading the dependencies of a name
that is not in the index throws. -/
def visit (index : List (String × IndexEntry)) (skipConditions : Bool) :
    Nat → String → List String × List String →
      Except JsErr (List String × List String)
  | 0, _, st => .ok st
  | fuel + 1, name, (visited, chain) =>
    if visited.contains name then .ok (visited, chain)
    else
      let visited1 := visited ++ [name]
      match index.lookup name with
      | none => .error .typeError
      | some scenario =>
        let afterDeps := scenario.dependencies.foldl
          (fun acc dep =>
            match acc with
            | .error e => .error e
            | .ok st =>
              if skipConditions && depOptional dep && (depCondition dep).isSome then
                .ok st
              else
                match depName dep with
                | some dn =>
                  if dn ≠ "" then visit index skipConditions fuel dn st else .ok st
                | none => .ok st)
          (Except.ok (visited1, chain))
        match afterDeps with
        | .error e => .error e
        | .ok (v2, c2) => .ok (v2, c2 ++ [name])

/-- The result record of `resolveDependencies`. -/
structure ResolveResult where
  chain : List String := []
  cycles : List (List String) := []
  errors : List String := []
  graph : List (String × List String) := []
  deriving DecidableEq, Repr

/-- `resolveDependencies`: not-found check, cycle detection, then the
topological visit from the requested root. -/
def resolveDependencies (scenarioName : String)
    (index : List (String × IndexEntry)) (skipConditions : Bool) :
    Except JsErr ResolveResult :=
  let graph := buildDependencyGraph index
  if (index.lookup scenarioName).isNone then
    .ok { graph := graph
          errors := ["Scenario \"" ++ scenarioName ++ "\" not found"] }
  else
    let cycles := detectCycles graph scenarioName
    if !cycles.isEmpty then
      .ok { graph := graph
            cycles := cycles
            errors := ["Circular dependencies detected: "
              ++ String.intercalate ", " (cycles.map (String.intercalate " → "))] }
    else
      match visit index skipConditions (visitFuelBound index) scenarioName ([], []) with
      | .error e => .error e
      | .ok st => .ok { graph := graph, chain := st.2 }

/-- The key list of a graph. -/
def graphKeys (graph : List (String × List String)) : List String :=
  graph.map Prod.fst

/-- The number of graph keys outside a visiting list: the quantity the
DFS fuel has to dominate. -/
def keysOutside (graph : List (String × List String)) (vis : List String) : Nat :=
  ((graphKeys graph).filter (fun k => !vis.contains k)).length

/-- An edge of the graph that `dfsDetect` actually follows: `v` is a
recorded dependency name of `u` and is itself a key of the graph. -/
def KeyEdge (graph : List (String × List String)) (u v : String) : Prop :=
  ∃ deps, graph.lookup u = some deps ∧ v ∈ deps ∧ (graph.lookup v).isSome

/-- A dependency cycle reachable from `root`: a node reachable from
the root through followed edges that lies on a nonempty edge cycle. -/
def CycleReachable (graph : List (String × List String)) (root : String) : Prop :=
  ∃ n, Relation.ReflTransGen (KeyEdge graph) root n
    ∧ Relation.TransGen (KeyEdge graph) n n

/-- The invariant the cycle-detection DFS maintains while it records no
cycle: the finished list has no duplicates, no node is simultaneously
on the stack and finished, and every followed edge out of a finished
node points to an earlier-finished node. -/
def GoodState (graph : List (String × List String)) (st : DfsState) : Prop :=
  st.visited.Nodup
    ∧ (∀ x ∈ st.visiting, x ∉ st.visited)
    ∧ (∀ (l1 : List String) (u : String) (l2 : List String),
        st.visited = l1 ++ u :: l2 → ∀ v, KeyEdge graph u v → v ∈ l1)

/-- The dependency names `buildDependencyGraph` keeps for one entry. -/
def gdeps (e : IndexEntry) : List String :=
  e.dependencies.filterMap (fun dep =>
    match depName dep with
    | some s => if s ≠ "" then some s else none
    | none => none)

/-- A closed index: every truthy dependency name of every entry is
itself an index key. -/
def ClosedIndex (index : List (String × IndexEntry)) : Prop :=
  ∀ p ∈ index, ∀ dep ∈ p.2.dependencies,
    ((depName dep).all fun dn => decide (dn = "") || (index.lookup dn).isSome) = true

/-- The invariant of the topological `visit`: the chain has no
duplicates, every chain element was discovered, and every followed
edge out of a chain element points to an earlier chain element or to a
discovered-but-unfinished node. -/
def VisitGood (graph : List (String × List String))
    (visited chain : List String) : Prop :=
  chain.Nodup
    ∧ (∀ x ∈ chain, x ∈ visited)
    ∧ (∀ (l1 : List String) (u : String) (l2 : List String),
        chain = l1 ++ u :: l2 → ∀ v, KeyEdge graph u v →
          v ∈ l1 ∨ (v ∈ visited ∧ v ∉ chain))

/-- The induction package for one frame of `visit`: the state is good,
discovery and chain have only grown, the set of discovered-unfinished
nodes is unchanged apart from the frame node itself, and every newly
finished node is reachable from the frame node. -/
def VisitPack (g : List (String × List String)) (name : String)
    (visited chain v c : List String) : Prop :=
  VisitGood g v c
    ∧ (∃ t, v = (visited ++ [name]) ++ t)
    ∧ (∃ t, c = chain ++ t)
    ∧ (∀ x, (x ∈ v ∧ x ∉ c) ↔ ((x ∈ visited ∨ x = name) ∧ x ∉ chain))
    ∧ (∀ x ∈ c, x ∉ chain → Relation.ReflTransGen (KeyEdge g) name x)

instance (index : List (String × IndexEntry)) : Decidable (ClosedIndex index) :=
  inferInstanceAs (Decidable (∀ p ∈ index, ∀ dep ∈ p.2.dependencies,
    ((depName dep).all fun dn => decide (dn = "") || (index.lookup dn).isSome) = true))

end DependencyResolver

/-!
## recorder/scenario-executor.js — executeScenario

The chain executor.  Page state is modelled by the descriptors the
guard checks read (storage keys, cookie names, button texts, URL,
title, resolvable selectors); the free-expression guard evaluator
(`new Function` over a context object) is an oracle parameter, and the
per-action playback routine `executeSingleScenario` — whose internals
drive the browser — is likewise a function parameter `runSingle`, so
the claims about chain construction, condition handling and the
executed-scenarios list are independent of the page-control boundary.
The `console.log('Skipping scenario …')` emitted by the inner
dependency-condition loop is recorded in `skippedLogs`: the `continue`
that follows it only ends the current iteration of that inner loop, so
the log is the only observable effect of a false guard.
-/

namespace ScenarioExecutor

open ScenarioStorage

/-- The page descriptors read by the guard checks. -/
structure Page where
  localStorageKeys : List String := []
  cookieNames : List String := []
  buttonTexts : List String := []
  url : String := ""
  title : String := ""
  selectors : List String := []

/-- The guard-evaluation context (the JS field named `variables` is
rendered `vars`: `variables` is reserved in Lean). -/
structure Ctx where
  page : Page
  vars : List (String × String) := []
  customEval : String → Bool := fun _ => false

/-- `checkIsAuthenticated`: an auth token key in page storage, an
auth/session/token cookie name, or a logout control. -/
def checkIsAuthenticated (page : Page) : Bool :=
  (["token", "authToken", "accessToken", "jwt"].any
      (fun k => page.localStorageKeys.contains k))
    || page.cookieNames.any (fun n =>
        Js.strIncludes (Js.toLower n) "auth"
          || Js.strIncludes (Js.toLower n) "session"
          || Js.strIncludes (Js.toLower n) "token")
    || page.buttonTexts.any (fun t =>
        ["logout", "log out", "sign out", "signout", "выход", "выйти"].any
          (fun kw => Js.strIncludes (Js.toLower t) kw))

/-- `checkDependencyCondition`: evaluate the guard kind and apply the
`skipIf` inversion.  A missing `pattern` in `urlMatches` coerces to the
string `undefined` under JS `includes`; a missing selector or variable
name yields false. -/
def checkDependencyCondition (condition : Option Cond) (context : Ctx) : Bool :=
  match condition with
  | none => true
  | some cond =>
    if !Js.truthyStr cond.check then true
    else
      let check := cond.check.getD ""
      let result :=
        if check = "isAuthenticated" then checkIsAuthenticated context.page
        else if check = "hasData" then
          match cond.key with
          | some k => (context.vars.lookup k).isSome
          | none => false
        else if check = "urlMatches" then
          Js.strIncludes context.page.url (cond.pattern.getD "undefined")
        else if check = "elementExists" then
          match cond.selector with
          | some sel => context.page.selectors.contains sel
          | none => false
        else if check = "variableExists" then
          match cond.varName with
          | some v => (context.vars.lookup v).isSome
          | none => false
        else context.customEval check
      if cond.skipIf then !result else result

/-- Result of one `executeSingleScenario` run (abstracted). -/
structure SingleResult where
  success : Bool
  errors : List String := []
  outputs : List (String × String) := []

/-- The overall execution result (`duration` is wall-clock time and is
not modelled; `skippedLogs` records the skip log lines, see above). -/
structure ExecResult where
  success : Bool := false
  scenarioName : String
  executedScenarios : List String := []
  errors : List String := []
  outputs : List (String × String) := []
  skippedLogs : List String := []

/-- The body of the `for (const name of chain)` loop of
`executeScenario`. -/
def execChain (runSingle : ScenarioDoc → List (String × String) → SingleResult)
    (st : Storage) (page : Page) (customEval : String → Bool) :
    List String → List (String × String) → ExecResult → ExecResult
  | [], _, result => { result with success := true }
  | name :: restChain, params, result =>
    match loadScenario st name false with
    | none =>
      { result with errors := result.errors ++ ["Scenario \"" ++ name ++ "\" not found"] }
    | some scenario =>
      let deps := (scenario.metadata.map (·.dependencies)).getD []
      let logs := deps.filterMap (fun dep =>
        match depCondition dep with
        | some c =>
          let context : Ctx :=
            { page := page, vars := params, customEval := customEval }
          if !checkDependencyCondition (some c) context then
            some ("Skipping scenario \"" ++ name ++ "\" due to condition")
          else none
        | none => none)
      let secrets := (loadSecrets st name).getD []
      let executionParams := Js.mergeMaps params secrets
      let sr := runSingle scenario executionParams
      let result :=
        { result with
          executedScenarios := result.executedScenarios ++ [name]
          skippedLogs := result.skippedLogs ++ logs }
      if !sr.success then { result with errors := result.errors ++ sr.errors }
      else
        execChain runSingle st page customEval restChain
          (Js.mergeMaps params sr.outputs)
          { result with outputs := Js.mergeMaps result.outputs sr.outputs }

/-- `executeScenario`: resolve the chain, then run it in order.  A
resolution error aborts before any scenario runs; a thrown resolution
exception is caught by the surrounding try. -/
def executeScenario
    (runSingle : ScenarioDoc → List (String × String) → SingleResult)
    (st : Storage) (page : Page) (customEval : String → Bool)
    (scenarioName : String) (params : List (String × String))
    (skipConditions : Bool) : ExecResult :=
  let base : ExecResult := { scenarioName := scenarioName }
  match DependencyResolver.resolveDependencies scenarioName (loadIndex st)
      skipConditions with
  | .error _ =>
    { base with errors := ["Execution failed: Cannot read properties of undefined"] }
  | .ok resolution =>
    if !resolution.errors.isEmpty then { base with errors := resolution.errors }
    else execChain runSingle st page customEval resolution.chain params base

end ScenarioExecutor

/-!
## Concrete instances used by the theorems

Inputs for the closed counterexample and witness statements: a scenario
pair with a guarded dependency, optimiser action triples, storage
documents, search-index entries, form/field snapshots and a two-node
document.
-/

namespace Fixtures

open ActionOptimizer ScenarioStorage ScenarioExecutor ParamSubstitution

/-- A selector with value `s`. -/
def selS : ActionOptimizer.Selector := { value := some "s" }

/-- A hover on `s` (claim C10). -/
def hover1 : Action := { type := "hover", selector := some selS, timestamp := 10 }

/-- A second hover on `s` (claim C10). -/
def hover2 : Action := { type := "hover", selector := some selS, timestamp := 20 }

/-- A click on `s` (claim C10). -/
def click1 : Action := { type := "click", selector := some selS, timestamp := 30 }

/-- First debounced type action: the field held `He` (claim C2). -/
def typeHe : Action :=
  { type := "type", selector := some selS
    data := { text := some "He", isSecret := some false }, timestamp := 100 }

/-- Second debounced type action: the field held `Hello` (claim C2). -/
def typeHello : Action :=
  { type := "type", selector := some selS
    data := { text := some "Hello", isSecret := some false }, timestamp := 200 }

/-- A scenario with an empty chain (claim C7). -/
def emptyChainDoc : ScenarioDoc :=
  { name := some "s", metadata := some {}, chain := some [] }

/-- A scenario carrying an unknown field and its own version and
creation date (claim C3). -/
def extraFieldDoc : ScenarioDoc :=
  { name := some "a", metadata := some {}, chain := some []
    version := some "2.0", createdAt := some "2020-01-01T00:00:00.000Z"
    extra := [("custom", "x")] }

/-- An index entry tagged `a` named `x` (claim C6). -/
def taggedEntry : IndexEntry := { name := "x", description := "", tags := ["a"] }

/-- A query whose tag criterion matches `taggedEntry` and whose text
criterion does not (claim C6). -/
def tagAndTextQuery : SearchQuery := { tags := some ["a"], text := some "zzz" }

/-- A form with no authentication keyword and no password-type input,
but one field named `passport` (claim C9). -/
def passportForm : SecretDetector.FormInfo :=
  { fields := some [{ type := some "text", name := some "passport" }] }

/-- An email input (claim C9). -/
def emailField : SecretDetector.ElementInfo := { type := some "email" }

/-- A snapshot with one class and no other descriptors (claim C5). -/
def classOnlyInfo : SelectorGenerator.ElementInfo :=
  { tagName := "div", classes := some ["foo"] }

/-- First of two alike nodes (claim C5). -/
def fooDiv1 : SelectorGenerator.DomElement :=
  { tag := "div", id := some "n1", classes := ["foo"] }

/-- Second of two alike nodes (claim C5). -/
def fooDiv2 : SelectorGenerator.DomElement :=
  { tag := "div", id := some "n2", classes := ["foo"] }

/-- The guard of the `checkout_flow → login_flow` edge (claim C1). -/
def authGuard : Cond := { check := some "isAuthenticated", skipIf := true }

/-- Index entry of `login_flow` (claims C1, C4). -/
def loginEntry : IndexEntry := { name := "login_flow" }

/-- Index entry of `checkout_flow`, depending on `login_flow` under
`authGuard` (claims C1, C4). -/
def checkoutEntry : IndexEntry :=
  { name := "checkout_flow"
    dependencies := [DepEntry.obj (some "login_flow") false (some authGuard) []] }

/-- The two-scenario index (claims C1, C4). -/
def checkoutIndex : List (String × IndexEntry) :=
  [("login_flow", loginEntry), ("checkout_flow", checkoutEntry)]

/-- Stored `login_flow` document (claim C1). -/
def loginDoc : ScenarioDoc :=
  { name := some "login_flow", metadata := some {}, chain := some [] }

/-- Stored `checkout_flow` document (claim C1). -/
def checkoutDoc : ScenarioDoc :=
  { name := some "checkout_flow"
    metadata := some { dependencies := checkoutEntry.dependencies }
    chain := some [] }

/-- Storage holding both scenarios and the index (claim C1). -/
def checkoutStorage : Storage :=
  { scenarioFiles := [("login_flow", loginDoc), ("checkout_flow", checkoutDoc)]
    indexFile := some checkoutIndex }

/-- A page whose cookies declare an authentication session (claim C1). -/
def authedPage : ScenarioExecutor.Page := { cookieNames := ["session_id"] }

/-- Playback stub: every scenario body succeeds with no outputs; the
claim concerns which scenarios are run, not how their actions fare
(claim C1). -/
def allOkRun : ScenarioDoc → List (String × String) → SingleResult :=
  fun _ _ => { success := true }

/-- An index whose single scenario names a dependency that is absent
from the index (claim C4). -/
def danglingIndex : List (String × IndexEntry) :=
  [("A", { name := "A", dependencies := [DepEntry.str "B"] })]

/-- An action with a top-level placeholder and one nested inside a
custom-select step (claim C8). -/
def nestedAction : SAction :=
  { type := "select"
    data := some
      [ ("value", JVal.str "\x7b\x7bx\x7d\x7d")
      , ("steps", JVal.arr [JVal.obj [("selector", JVal.str "\x7b\x7bsel\x7d\x7d")]]) ] }

/-- Parameters defining both placeholder names (claim C8). -/
def nestedParams : List (String × String) := [("x", "1"), ("sel", "#a")]

/-- Projection reading the selector string of the first custom-select
step, used to compare substitution results without equality on JSON
trees (claim C8). -/
def stepsSelector (a : SAction) : Option String :=
  match a.data with
  | some entries =>
    match entries.lookup "steps" with
    | some (JVal.arr (JVal.obj fields :: _)) =>
      match fields.lookup "selector" with
      | some (JVal.str s) => some s
      | _ => none
    | _ => none
  | none => none

/-- Projection reading the top-level `value` string (claim C8). -/
def valueField (a : SAction) : Option String :=
  match a.data with
  | some entries =>
    match entries.lookup "value" with
    | some (JVal.str s) => some s
    | _ => none
  | none => none

/-- A CSS identifier fit for the unescaped fragment of the selector
grammar: nonempty, led by a letter or underscore, continued by
letters, digits, hyphen or underscore (claim C5). -/
def isSafeIdent (i : String) : Bool :=
  !i.isEmpty
    && (match i.data.head? with
        | some c => SelectorGenerator.isAlphaCp c || c = '_'
        | none => false)
    && i.data.all (fun c =>
        SelectorGenerator.isAlphaCp c || SelectorGenerator.isDigitCp c
          || c = '-' || c = '_')

/-- A snapshot whose id is a safe CSS identifier (claim C5 witness). -/
def idInfo : SelectorGenerator.ElementInfo := { tagName := "div", id := some "box" }

/-- The unique node carrying id `box` (claim C5 witness). -/
def boxDiv : SelectorGenerator.DomElement := { tag := "div", id := some "box" }

end Fixtures

/-!
## Theorems

One theorem per claim (with a witness where the statement carries
hypotheses, and a counterexample where the claim as frozen fails on the
code), preceded by the shared helper lemmas.
-/

section ClaimTheorems

open ActionOptimizer ScenarioStorage DependencyResolver ScenarioExecutor
open ParamSubstitution SelectorGenerator SecretDetector Fixtures

/-- Splitting `takeWhile`/`dropWhile` at an append whose left part
satisfies the predicate and whose right part starts with a failure. -/
theorem takeWhile_dropWhile_append {α : Type} (p : α → Bool) (l₁ l₂ : List α)
    (h1 : ∀ b ∈ l₁, p b) (h2 : ∀ r, l₂.head? = some r → ¬ p r) :
    (l₁ ++ l₂).takeWhile p = l₁ ∧ (l₁ ++ l₂).dropWhile p = l₂ := by
  induction l₁ with
  | nil =>
    simp only [List.nil_append]
    cases l₂ with
    | nil => simp
    | cons r t =>
      have hr : ¬ p r := h2 r rfl
      constructor
      · rw [List.takeWhile_cons_of_neg (by simpa using hr)]
      · rw [List.dropWhile_cons_of_neg (by simpa using hr)]
  | cons b t ih =>
    have hb : p b := h1 b (List.mem_cons_self b t)
    have ht : ∀ x ∈ t, p x := fun x hx => h1 x (List.mem_cons_of_mem b hx)
    have := ih ht
    constructor
    · rw [List.cons_append, List.takeWhile_cons_of_pos hb, this.1]
    · rw [List.cons_append, List.dropWhile_cons_of_pos hb, this.2]

/-- C10 (code bug): the optimiser is not idempotent.  On the chain
hover, hover, click (all on one selector) the first optimisation keeps
the leading hover — even though it is then immediately followed by a
click on the same selector, which the hover pass itself deems
unnecessary — and a second optimisation removes it, so
`optimize ∘ optimize ≠ optimize` where the specification demands
equality. -/
theorem claim_C10_optimizer_not_idempotent :
    optimizeActions [hover1, hover2, click1] = [hover1, click1]
      ∧ optimizeActions (optimizeActions [hover1, hover2, click1]) = [click1]
      ∧ optimizeActions (optimizeActions [hover1, hover2, click1])
          ≠ optimizeActions [hover1, hover2, click1] := by
  refine ⟨by decide, by decide, by decide⟩

/-- C2 (counterexample): two consecutive debounced type actions on the
same selector with texts `He` then `Hello` collapse to one action whose
text is the concatenation `HeHello`, not the last text `Hello` the
claim requires. -/
theorem claim_C2_counterexample :
    (combineSequentialTypes [typeHe, typeHello]).map (fun a => a.data.text)
        = [some "HeHello"]
      ∧ typeHello.data.text = some "Hello"
      ∧ combineSequentialTypes [typeHe, typeHello] ≠ [typeHello] := by
  refine ⟨by decide, by decide, by decide⟩

/-- C7 (counterexample): a scenario whose chain is the empty array
passes validation — `![]` is false in JS — so the save succeeds and the
scenario file is written, where the claim requires a validation
failure. -/
theorem claim_C7_counterexample :
    (saveScenario emptyChainDoc "2024-01-01T00:00:00.000Z" {}).1.success = true
      ∧ ((saveScenario emptyChainDoc "2024-01-01T00:00:00.000Z" {}).2.scenarioFiles.lookup
          "s").isSome = true := by
  refine ⟨by decide, by decide⟩

/-- C3 (counterexample): saving drops the unknown `custom` field and
overwrites `version` and `created_at`, so the loaded scenario is not
field-wise equal to the input. -/
theorem claim_C3_counterexample :
    (loadScenario (saveScenario extraFieldDoc "2024-06-01T00:00:00.000Z" {}).2
          "a" false).map (·.version) = some (some "1.0")
      ∧ extraFieldDoc.version = some "2.0"
      ∧ (loadScenario (saveScenario extraFieldDoc "2024-06-01T00:00:00.000Z" {}).2
          "a" false).map (·.extra) = some []
      ∧ extraFieldDoc.extra = [("custom", "x")] := by
  refine ⟨by decide, by decide, by decide, by decide⟩

/-- C6 (counterexample): with both a tag and a text criterion supplied,
a scenario matching only the tag criterion is dropped by the
conjunctive filter of the code, though the union reading of the claim
returns it. -/
theorem claim_C6_counterexample :
    searchScenarios [("x", taggedEntry)] tagAndTextQuery = []
      ∧ specSearchScenariosUnion [("x", taggedEntry)] tagAndTextQuery
          = [taggedEntry] := by
  refine ⟨by decide, by decide⟩

/-- C9 (counterexample): a form with no authentication keyword and no
password-type input — only a text field named `passport` — is still an
authentication form to the code (a field NAME containing `pass`
suffices), so an email input inside it is classified as a secret,
though the claim requires `is_secret = false` for such a form. -/
theorem claim_C9_counterexample :
    specNonAuthForm passportForm = true
      ∧ (detectSecretField emailField (some passportForm)).isSecret = true := by
  refine ⟨by decide, by decide⟩

/-- C5 (counterexample): the selector synthesiser consults no document;
on a snapshot with a single class it produces primary `div.foo`, which
matches both nodes of a two-node document, not exactly the input
node. -/
theorem claim_C5_counterexample :
    generateSelector classOnlyInfo
        = { primary := "div.foo", fallbacks := ["div"] }
      ∧ (querySelectorAll [fooDiv1, fooDiv2]
          (generateSelector classOnlyInfo).primary).length = 2 := by
  refine ⟨by decide, by decide⟩

/-- C8 (counterexample): substitution resolves the top-level `value`
placeholder but leaves the placeholder inside the custom-select step
untouched, though its parameter is defined — the claim requires every
nested string field to be substituted (as the specification-worded deep
substitution does). -/
theorem claim_C8_counterexample :
    valueField (substituteParameters nestedAction nestedParams) = some "1"
      ∧ stepsSelector (substituteParameters nestedAction nestedParams)
          = some "\x7b\x7bsel\x7d\x7d"
      ∧ stepsSelector (specSubstituteParametersDeep nestedAction nestedParams)
          = some "#a"
      ∧ nestedParams.lookup "sel" = some "#a" := by
  refine ⟨by decide, by decide, by decide, by decide⟩

/-- C1 (code bug): executing `checkout_flow` — whose dependency on
`login_flow` carries the guard `isAuthenticated` with `skip_if = true`
— on a page whose cookies declare an authentication session evaluates
the guard to `skip` (and logs it), yet executes and lists both
scenarios: the `continue` only ends the inner dependency loop, so the
executed list is `[login_flow, checkout_flow]` where the claim requires
`[checkout_flow]`. -/
theorem claim_C1_skip_not_applied :
    (executeScenario allOkRun checkoutStorage authedPage (fun _ => false)
        "checkout_flow" [] false).executedScenarios
        = ["login_flow", "checkout_flow"]
      ∧ checkDependencyCondition (some authGuard)
          { page := authedPage, vars := [], customEval := fun _ => false } = false
      ∧ (executeScenario allOkRun checkoutStorage authedPage (fun _ => false)
          "checkout_flow" [] false).skippedLogs
          = ["Skipping scenario \"checkout_flow\" due to condition"]
      ∧ (executeScenario allOkRun checkoutStorage authedPage (fun _ => false)
          "checkout_flow" [] false).success = true := by
  refine ⟨by decide, by decide, by decide, by decide⟩


/-- Claim C7, corrected: saving fails with a validation error exactly
when the name is falsy or the chain field is absent, and on failure no
file and no index entry changes; but a present empty chain array is
truthy in JS, so `chain = []` is accepted, and on the accepted path the
written document is the canonical one (success reporting further
requires a metadata object). -/
theorem claim_C7 :
    ∀ (scenario : ScenarioDoc) (now : String) (st : Storage),
      ((Js.truthyStr scenario.name = false ∨ scenario.chain = none) →
        (saveScenario scenario now st).1.success = false
          ∧ (saveScenario scenario now st).2.scenarioFiles = st.scenarioFiles
          ∧ (saveScenario scenario now st).2.secretFiles = st.secretFiles
          ∧ (saveScenario scenario now st).2.indexFile.getD [] = st.indexFile.getD [])
      ∧ (Js.truthyStr scenario.name = true → scenario.chain ≠ none →
        (saveScenario scenario now st).1.success
            = (scenario.metadata.isSome : Bool)
          ∧ (saveScenario scenario now st).2.scenarioFiles.lookup (scenario.name.getD "")
              = some { name := scenario.name
                       metadata := some (scenario.metadata.getD {})
                       chain := scenario.chain
                       version := some "1.0"
                       createdAt := some now
                       secrets := none
                       extra := [] }) := by
  intro scenario now st
  constructor
  · intro h
    have hc : (!Js.truthyStr scenario.name || decide (scenario.chain = none)) = true := by
      rcases h with h | h <;> simp [h]
    simp [saveScenario, initStorage, hc]
  · intro h1 h2
    have hc : (!Js.truthyStr scenario.name || decide (scenario.chain = none)) = false := by
      simp [h1, h2]
    cases hm : scenario.metadata with
    | none =>
      simp only [saveScenario, initStorage, hc, hm, Bool.false_eq_true, if_false]
      constructor
      · simp
      · split <;> simp [List.lookup]
    | some md =>
      simp only [saveScenario, initStorage, hc, hm, Bool.false_eq_true, if_false,
        updateIndex]
      constructor
      · simp
      · split <;> simp [List.lookup]

/-- Claim C3, corrected: loading back immediately after saving returns
the canonical-schema document only: name, metadata and chain survive,
but `version` and `created_at` are reset to `1.0` and the save time,
secrets are stripped, and fields outside the canonical schema are
dropped rather than round-tripped. -/
theorem claim_C3 :
    ∀ (doc : ScenarioDoc) (now : String) (st : Storage) (n : String),
      doc.name = some n → n ≠ "" → doc.chain ≠ none →
      loadScenario (saveScenario doc now st).2 n false
        = some { name := some n
                 metadata := some (doc.metadata.getD {})
                 chain := doc.chain
                 version := some "1.0"
                 createdAt := some now
                 secrets := none
                 extra := [] } := by
  intro doc now st n hn hne hchain
  have ht : Js.truthyStr doc.name = true := by simp [Js.truthyStr, hn, hne]
  have hc : (!Js.truthyStr doc.name || decide (doc.chain = none)) = false := by
    simp [ht, hchain]
  cases hm : doc.metadata with
  | none =>
    simp only [saveScenario, initStorage, hc, hm, Bool.false_eq_true, if_false]
    split <;> simp [loadScenario, List.lookup, hn]
  | some md =>
    simp only [saveScenario, initStorage, hc, hm, Bool.false_eq_true, if_false,
      updateIndex]
    split <;> simp [loadScenario, List.lookup, hn]

/-- Claim C6, corrected: `searchScenarios` applies the supplied
criteria as successive narrowing filters, so a scenario is returned
exactly when it matches the intersection of the supplied criteria, not
their union. -/
theorem claim_C6 :
    ∀ (index : List (String × IndexEntry)) (query : SearchQuery) (s : IndexEntry),
      s ∈ searchScenarios index query ↔
        (s ∈ index.map (·.2)
          ∧ (∀ qtags, query.tags = some qtags → qtags ≠ [] → tagMatch qtags s = true)
          ∧ (∀ t, query.text = some t → t ≠ "" → textMatch t s = true)
          ∧ (∀ d, query.dependencies = some d → d ≠ "" → depMatch d s = true)) := by
  intro index query s
  obtain ⟨qt, qx, qd⟩ := query
  simp only [searchScenarios]
  cases qt <;> cases qx <;> cases qd <;> dsimp only <;> (try split_ifs) <;>
    (simp_all [List.mem_filter]) <;> tauto

/-- Claim C9, corrected: outside a form that `isAuthenticationForm`
accepts, classification returns not-a-secret regardless of the field;
inside one, the detected kind is the first of the fixed priority list
password, email, phone, otp, token whose criterion holds.  The
authentication-form notion is the one of the code, which also inspects
the names of the form fields, so a form whose only field is named
`passport` counts as an authentication form (see the counterexample). -/
theorem claim_C9 :
    (∀ (e : SecretDetector.ElementInfo) (f : Option FormInfo),
        isAuthenticationForm f = false →
          detectSecretField e f = { isSecret := false, fieldType := none })
      ∧ (∀ (e : SecretDetector.ElementInfo) (f : Option FormInfo),
          isAuthenticationForm f = true →
            (detectSecretField e f).fieldType
                = secretFieldPriority.find? (kindCriterion e f)
              ∧ (detectSecretField e f).isSecret
                  = (secretFieldPriority.find? (kindCriterion e f)).isSome) := by
  constructor
  · intro e f h
    simp [detectSecretField, h]
  · intro e f h
    have key : detectFieldType e f = secretFieldPriority.find? (kindCriterion e f) := by
      simp only [detectFieldType, kindCriterion, secretFieldPriority, List.find?]
      by_cases h1 : e.type = some "password" <;>
        by_cases h2 : matchesKeywords (elementSearchText e) passwordKeywords <;>
        by_cases h3 : e.type = some "email" <;>
        by_cases h4 : matchesKeywords (elementSearchText e) emailKeywords <;>
        by_cases h5 : e.type = some "tel" <;>
        by_cases h6 : matchesKeywords (elementSearchText e) phoneKeywords <;>
        by_cases h7 : matchesKeywords (elementSearchText e) otpKeywords <;>
        by_cases h8 : otpMaxLengthOk e <;>
        by_cases h9 : isVerifyForm f <;>
        by_cases h10 : matchesKeywords (elementSearchText e) tokenKeywords <;>
        simp_all
    constructor
    · simp [detectSecretField, h, key]
    · simp [detectSecretField, h, key]

theorem combineFuel_congr :
    ∀ (fuel1 : Nat) (xs : List Action), xs.length < fuel1 →
      ∀ (fuel2 : Nat), xs.length < fuel2 →
        combineFuel fuel1 xs = combineFuel fuel2 xs := by
  intro fuel1
  induction fuel1 with
  | zero => intro xs h; omega
  | succ f ih =>
    intro xs h fuel2 h2
    match xs, fuel2 with
    | [], _ => cases fuel2 <;> simp [combineFuel]
    | a :: rest, f2 + 1 =>
      simp only [combineFuel]
      have hr : rest.length < f := by
        simp only [List.length_cons] at h; omega
      have hr2 : rest.length < f2 := by
        simp only [List.length_cons] at h2; omega
      have hd : (rest.dropWhile (sameTypeRun a)).length ≤ rest.length :=
        (List.dropWhile_suffix _).sublist.length_le
      by_cases ht : a.type = "type"
      · by_cases hrun : (rest.takeWhile (sameTypeRun a)).isEmpty
        · simp [ht, hrun, ih rest hr f2 hr2]
        · simp [ht, hrun, ih (rest.dropWhile (sameTypeRun a)) (by omega) f2 (by omega)]
      · simp [ht, ih rest hr f2 hr2]

/-- Claim C2, corrected: the optimiser collapses each maximal run of
consecutive identical-selector type actions into a single type action
whose text is the concatenation of all the texts of the run (not the
last text alone), keeping the timestamp of the last action of the run;
a head action that is not a type action passes through unchanged. -/
theorem claim_C2 :
    (∀ (a : Action) (run rest : List Action) (hrun : run ≠ []),
      a.type = "type" →
      (∀ b ∈ run, sameTypeRun a b = true) →
      (∀ r, rest.head? = some r → sameTypeRun a r = false) →
      combineSequentialTypes (a :: (run ++ rest)) =
        ({ a with
            data := { a.data with text := some (joinTexts (a :: run)) }
            timestamp := (run.getLast hrun).timestamp } : Action)
          :: combineSequentialTypes rest)
    ∧ (∀ (a : Action) (rest : List Action), a.type ≠ "type" →
        combineSequentialTypes (a :: rest) = a :: combineSequentialTypes rest) := by
  constructor
  · intro a run rest hrun htype hall hstop
    have hsplit := takeWhile_dropWhile_append (sameTypeRun a) run rest
      hall (fun r hr => by simp [hstop r hr])
    have hlast : (a :: run).getLastD a = run.getLast hrun := by
      rw [List.getLastD_cons, List.getLastD_eq_getLast?, List.getLast?_eq_getLast run hrun]
      rfl
    have hrunE : run.isEmpty = false := by
      cases run with
      | nil => exact absurd rfl hrun
      | cons x xs => rfl
    simp only [combineSequentialTypes, List.length_cons]
    simp only [combineFuel, htype, if_true, hsplit.1, hsplit.2, hrunE,
      Bool.false_eq_true, if_false, hlast]
    congr 1
    exact combineFuel_congr _ rest
      (by simp only [List.length_append]; omega) _ (by omega)
  · intro a rest hne
    simp only [combineSequentialTypes, List.length_cons]
    simp only [combineFuel, hne, if_false]

theorem substVerbatim :
    ∀ (params : List (String × String)) (fuel : Nat) (cs : List Char),
      (∀ c ∈ cs, c ≠ '\x7b') → substCharsFuel params fuel cs = cs := by
  intro params fuel
  induction fuel with
  | zero => intro cs h; cases cs <;> rfl
  | succ f ih =>
    intro cs h
    match cs with
    | [] => rfl
    | c :: rest =>
      have hc : c ≠ '\x7b' := h c (by simp)
      have hrest : ∀ x ∈ rest, x ≠ '\x7b' := fun x hx => h x (by simp [hx])
      rw [substCharsFuel.eq_def]
      split
      all_goals first | rfl | simp_all

/-- Claim C8, corrected: parameter substitution rebuilds the action
data by mapping over the top-level entries only, replacing each
defined `\x7b\x7bname\x7d\x7d` placeholder in top-level string fields and
leaving undefined placeholders and all non-string (nested) payloads,
such as custom-select steps, untouched. -/
theorem claim_C8 :
    (∀ (action : SAction) (params : List (String × String))
        (entries : List (String × JVal)),
      action.data = some entries →
        (substituteParameters action params).data
            = some (entries.map (fun kv =>
                match kv.2 with
                | JVal.str s => (kv.1, JVal.str (substituteString s params))
                | v => (kv.1, v)))
          ∧ (substituteParameters action params).type = action.type
          ∧ (substituteParameters action params).selector = action.selector
          ∧ (substituteParameters action params).timestamp = action.timestamp)
    ∧ (∀ (action : SAction) (params : List (String × String)),
        action.data = none → substituteParameters action params = action)
    ∧ (∀ (n : String) (params : List (String × String)), n ≠ "" →
        (∀ c ∈ n.data, isWordChar c = true) →
        substituteString ("\x7b\x7b" ++ n ++ "\x7d\x7d") params
          = (match params.lookup n with
             | some v => v
             | none => "\x7b\x7b" ++ n ++ "\x7d\x7d"))
    ∧ (∀ (s : String) (params : List (String × String)),
        (∀ c ∈ s.data, c ≠ '\x7b') → substituteString s params = s) := by
  refine ⟨?_, ?_, ?_, ?_⟩
  · intro action params entries hdata
    simp [substituteParameters, hdata]
  · intro action params hdata
    simp [substituteParameters, hdata]
  · intro n params hne hword
    have hdata : ("\x7b\x7b" ++ n ++ "\x7d\x7d").data
        = '\x7b' :: '\x7b' :: (n.data ++ ['\x7d', '\x7d']) := by
      simp [String.data_append]
    have hnil : n.data ≠ [] := by
      cases n; simp_all [String.ext_iff]
    have hsplit := takeWhile_dropWhile_append isWordChar n.data ['\x7d', '\x7d']
      hword (by intro r hr; simp at hr; subst hr; decide)
    have hrunE : n.data.isEmpty = false := by
      cases hn : n.data with
      | nil => exact absurd hn hnil
      | cons x xs => rfl
    simp only [substituteString, substChars, hdata, List.length_cons,
      List.length_append]
    rw [substCharsFuel.eq_def]
    simp only [hsplit.1, hsplit.2, hrunE, Bool.not_false, List.take,
      List.drop]
    have hmk : String.mk n.data = n := rfl
    simp only [hmk]
    have hz : ∀ f, substCharsFuel params f ([] : List Char) = [] := by
      intro f; cases f <;> rfl
    cases hl : params.lookup n with
    | none =>
      simp only [hl, hz, List.append_nil]
      rw [String.ext_iff]
      simp [hdata]
    | some v =>
      simp only [hl, hz, List.append_nil]
      rw [String.ext_iff]
      simp
  · intro s params h
    simp only [substituteString, substChars]
    rw [substVerbatim params _ s.data h]

theorem cssEscapeChar_keep (first : Option Char) (n i : Nat) (c : Char)
    (hsafe : (isAlphaCp c || isDigitCp c || c = '-' || c = '_') = true)
    (h0 : i = 0 → isDigitCp c = false ∧ c ≠ '-')
    (h1 : i = 1 → first ≠ some '-') :
    cssEscapeChar first n i c = String.singleton c := by
  have hval : (65 ≤ c.toNat ∧ c.toNat ≤ 90) ∨ (97 ≤ c.toNat ∧ c.toNat ≤ 122)
      ∨ (48 ≤ c.toNat ∧ c.toNat ≤ 57) ∨ c = '-' ∨ c = '_' := by
    simp only [isAlphaCp, isDigitCp, Bool.or_eq_true, Bool.and_eq_true,
      decide_eq_true_eq] at hsafe
    tauto
  have hminus : c = '-' → c.toNat = 45 := by intro h; rw [h]; rfl
  have hunder : c = '_' → c.toNat = 95 := by intro h; rw [h]; rfl
  have hrange : 45 ≤ c.toNat ∧ c.toNat ≤ 122 := by
    rcases hval with h | h | h | h | h
    · omega
    · omega
    · omega
    · rw [hminus h]; omega
    · rw [hunder h]; omega
  simp only [cssEscapeChar]
  rw [if_neg (by omega)]
  rw [if_neg (by simp only [Bool.or_eq_true, Bool.and_eq_true, decide_eq_true_eq]; omega)]
  rw [if_neg ?g3]
  rw [if_neg ?g4]
  rw [if_neg ?g5]
  rw [if_pos ?g6]
  case g3 =>
    simp only [Bool.and_eq_true, decide_eq_true_eq, not_and]
    intro hi
    simp [(h0 hi).1]
  case g4 =>
    simp only [Bool.and_eq_true, decide_eq_true_eq, not_and, and_imp]
    intro hi _ hf
    exact (h1 hi) hf
  case g5 =>
    simp only [Bool.and_eq_true, decide_eq_true_eq, not_and, and_imp]
    intro hi hm
    exact absurd hm (h0 hi).2
  case g6 =>
    simp only [Bool.or_eq_true, decide_eq_true_eq, isAlphaCp, isDigitCp,
      Bool.and_eq_true]
    rcases hval with h | h | h | h | h
    · exact Or.inr (by omega)
    · exact Or.inr (by omega)
    · exact Or.inl (Or.inr (by omega))
    · exact Or.inl (Or.inl (Or.inl (Or.inr h)))
    · exact Or.inl (Or.inl (Or.inr h))

theorem cssEscapeGo_tail (first : Option Char) (n : Nat)
    (hfirst : first ≠ some '-') :
    ∀ (l : List Char) (i : Nat), 1 ≤ i →
      (∀ c ∈ l, (isAlphaCp c || isDigitCp c || c = '-' || c = '_') = true) →
      cssEscapeGo first n i l = String.mk l := by
  intro l
  induction l with
  | nil => intro i _ _; rfl
  | cons c rest ih =>
    intro i hi hsafe
    simp only [cssEscapeGo]
    rw [cssEscapeChar_keep first n i c (hsafe c (by simp))
      (by omega) (fun _ => hfirst)]
    rw [ih (i + 1) (by omega) (fun x hx => hsafe x (by simp [hx]))]
    rw [String.ext_iff]
    simp [String.singleton]

theorem cssEscape_safe (i : String) (h : isSafeIdent i = true) :
    cssEscape i = i := by
  simp only [isSafeIdent, Bool.and_eq_true] at h
  obtain ⟨⟨hne, hhead⟩, hall⟩ := h
  have halldata : ∀ c ∈ i.data,
      (isAlphaCp c || isDigitCp c || c = '-' || c = '_') = true := by
    intro c hc
    have := List.all_eq_true.mp hall c hc
    simpa using this
  cases hd : i.data with
  | nil =>
    exfalso
    cases i
    simp_all [String.isEmpty]
  | cons c rest =>
    have hheadc : (isAlphaCp c || c = '_') = true := by
      rw [hd] at hhead
      simpa using hhead
    have hcnotdigit : isDigitCp c = false := by
      rw [Bool.eq_false_iff]
      rcases Bool.or_eq_true_iff.mp hheadc with h1 | h1
      · simp only [isAlphaCp, Bool.or_eq_true, Bool.and_eq_true,
          decide_eq_true_eq] at h1
        simp only [isDigitCp]
        rcases h1 with h1 | h1 <;> (simp only [Bool.and_eq_true, decide_eq_true_eq,
          Bool.eq_false_iff, ne_eq, not_and]; omega)
      · have : c = '_' := by simpa using h1
        rw [this]; decide
    have hcnotminus : c ≠ '-' := by
      intro hEq
      rcases Bool.or_eq_true_iff.mp hheadc with h1 | h1
      · rw [hEq] at h1
        exact absurd h1 (by decide)
      · have : c = '_' := by simpa using h1
        rw [this] at hEq
        exact absurd hEq (by decide)
    have hfirst : i.data.head? ≠ some '-' := by
      rw [hd]
      simp only [List.head?_cons]
      exact fun hx => hcnotminus (Option.some.inj hx)
    simp only [cssEscape, hd]
    simp only [cssEscapeGo]
    rw [cssEscapeChar_keep _ _ 0 c
      (by exact halldata c (by rw [hd]; simp))
      (fun _ => ⟨hcnotdigit, hcnotminus⟩)
      (by omega)]
    rw [cssEscapeGo_tail _ _ (by rw [← hd] at *; exact hfirst) rest 1 (by omega)
      (fun x hx => halldata x (by rw [hd]; simp [hx]))]
    rw [String.ext_iff]
    simp [String.singleton, hd]

theorem parseSimplesFuel_nil :
    ∀ (f : Nat) (acc : CompoundSel), parseSimplesFuel f [] acc = some acc := by
  intro f acc; cases f <;> rfl

/-- Claim C5, corrected: `generateSelector` never queries the
document, so local uniqueness is not guaranteed in general; when the
element carries an id that is a safe CSS identifier and that id
belongs to exactly one document node, the primary selector is the id
selector and resolves to exactly that node. -/
theorem claim_C5 :
    ∀ (e : SelectorGenerator.ElementInfo) (doc : List DomElement) (el : DomElement)
      (i : String),
      e.id = some i → isSafeIdent i = true →
      doc.filter (fun d => d.id = some i) = [el] →
      (generateSelector e).primary = "#" ++ i
        ∧ querySelectorAll doc ((generateSelector e).primary) = [el] := by
  intro e doc el i hid hsafe hfilter
  simp only [isSafeIdent, Bool.and_eq_true] at hsafe
  obtain ⟨⟨hne, hhead⟩, hall⟩ := hsafe
  have hnil : i.data ≠ [] := by
    intro hx
    cases i
    simp_all [String.isEmpty]
  have hine : i ≠ "" := fun hx => hnil (by simp [hx])
  have halldata : ∀ c ∈ i.data, isSelNameChar c = true := by
    intro c hc
    have := List.all_eq_true.mp hall c hc
    simpa [isSelNameChar] using this
  have hsdigit : startsWithDigit i = false := by
    simp only [startsWithDigit]
    cases hd : i.data with
    | nil => rfl
    | cons c rest =>
      simp only [List.head?_cons]
      rw [hd] at hhead
      simp only [List.head?_cons] at hhead
      rcases (by simpa using hhead : isAlphaCp c = true ∨ c = '_') with h1 | h1
      · rw [Bool.eq_false_iff]
        simp only [isAlphaCp, Bool.or_eq_true, Bool.and_eq_true,
          decide_eq_true_eq] at h1
        simp only [isDigitCp, Bool.and_eq_true, decide_eq_true_eq, ne_eq, not_and]
        rcases h1 with h1 | h1 <;> omega
      · rw [h1]; decide
  have htri : Js.truthyStr (some i) = true := by simp [Js.truthyStr, hine]
  have hesc : cssEscape i = i := cssEscape_safe i (by
    simp [isSafeIdent, hne, hhead, hall])
  have hne2 : ("#" ++ i) ≠ "" := by
    simp [String.ext_iff, String.data_append]
  have hprim : (generateSelector e).primary = "#" ++ i := by
    simp only [generateSelector, selectorCandidates, hid, Option.getD_some, htri,
      hsdigit, Bool.not_false, Bool.and_self, if_true, hesc, List.nil_append,
      List.cons_append, List.head?_cons, Js.strOr]
    simp [hne2]
  refine ⟨hprim, ?_⟩
  rw [hprim]
  have hdata : ("#" ++ i).data = '#' :: i.data := by
    simp [String.data_append]
  have hsplit := takeWhile_dropWhile_append isSelNameChar i.data []
    halldata (by intro r hr; simp at hr)
  rw [List.append_nil] at hsplit
  have hrunE : i.data.isEmpty = false := by
    cases hx : i.data with
    | nil => exact absurd hx hnil
    | cons y ys => rfl
  have hparse : parseCompound ("#" ++ i)
      = some { tag := none, id := some i, classes := [], attrs := [] } := by
    simp only [parseCompound, hdata]
    have htag : isTagChar '#' = false := by decide
    rw [List.takeWhile_cons_of_neg (by simp [htag]),
      List.dropWhile_cons_of_neg (by simp [htag])]
    simp only [List.isEmpty_nil, if_true, List.length_cons]
    rw [parseSimplesFuel.eq_def]
    simp only [hsplit.1, hsplit.2, hrunE, Bool.not_false, parseSimplesFuel_nil]
    rfl
  rw [querySelectorAll, hparse]
  dsimp only
  rw [List.filter_congr ?hcong]
  · exact hfilter
  case hcong =>
    intro a _
    simp [elemMatches]

theorem dfs_state (g : List (String × List String)) :
    ∀ (fuel : Nat) (node : String) (path : List String) (s : DfsState),
      (dfsDetect g fuel node path s).visiting = s.visiting
        ∧ (∃ t, (dfsDetect g fuel node path s).visited = s.visited ++ t)
        ∧ (∃ t, (dfsDetect g fuel node path s).cycles = s.cycles ++ t) := by
  intro fuel
  induction fuel with
  | zero =>
    intro node path s
    exact ⟨rfl, ⟨[], by simp [dfsDetect]⟩, ⟨[], by simp [dfsDetect]⟩⟩
  | succ f ih =>
    intro node path s
    by_cases h1 : node ∈ s.visiting
    · refine ⟨?_, ⟨[], ?_⟩, ⟨[jsSlice path (jsIndexOf path node) ++ [node]], ?_⟩⟩ <;>
        simp [dfsDetect, h1]
    · by_cases h2 : node ∈ s.visited
      · refine ⟨?_, ⟨[], ?_⟩, ⟨[], ?_⟩⟩ <;> simp [dfsDetect, h1, h2]
      · simp only [dfsDetect, h1, h2, Bool.false_eq_true, if_false,
          List.elem_eq_mem, decide_eq_true_eq]
        have hmem : node ∉ s.visiting := h1
        set s1 : DfsState := { s with visiting := s.visiting ++ [node] } with hs1
        set path1 := path ++ [node] with hpath1
        set deps := (g.lookup node).getD [] with hdeps
        have hfold : ∀ (ds : List String) (acc : DfsState),
            ((ds.foldl (fun acc dep =>
                if (g.lookup dep).isSome then dfsDetect g f dep path1 acc
                else acc) acc).visiting = acc.visiting
              ∧ (∃ t, (ds.foldl (fun acc dep =>
                  if (g.lookup dep).isSome then dfsDetect g f dep path1 acc
                  else acc) acc).visited = acc.visited ++ t)
              ∧ (∃ t, (ds.foldl (fun acc dep =>
                  if (g.lookup dep).isSome then dfsDetect g f dep path1 acc
                  else acc) acc).cycles = acc.cycles ++ t)) := by
          intro ds
          induction ds with
          | nil =>
            intro acc
            exact ⟨rfl, ⟨[], by simp⟩, ⟨[], by simp⟩⟩
          | cons d ds ihd =>
            intro acc
            simp only [List.foldl_cons]
            by_cases hd : (g.lookup d).isSome
            · simp only [hd, if_true]
              obtain ⟨hv, ⟨t1, ht1⟩, ⟨t2, ht2⟩⟩ := ihd (dfsDetect g f d path1 acc)
              obtain ⟨hv0, ⟨t3, ht3⟩, ⟨t4, ht4⟩⟩ := ih d path1 acc
              refine ⟨by rw [hv, hv0], ⟨t3 ++ t1, ?_⟩, ⟨t4 ++ t2, ?_⟩⟩
              · rw [ht1, ht3, List.append_assoc]
              · rw [ht2, ht4, List.append_assoc]
            · simp only [hd, Bool.false_eq_true, if_false]
              exact ihd acc
        obtain ⟨hv, ⟨t1, ht1⟩, ⟨t2, ht2⟩⟩ := hfold deps s1
        refine ⟨?_, ⟨t1 ++ [node], ?_⟩, ⟨t2, ?_⟩⟩
        · simp only [hv, hs1]
          rw [List.erase_append_right _ (by simpa using hmem)]
          simp
        · simp only [ht1, hs1, List.append_assoc]
        · simp only [ht2, hs1]

theorem chain_mem_reflTransGen {R : String → String → Prop} :
    ∀ (l : List String) (a x : String), List.Chain R a l → x ∈ a :: l →
      Relation.ReflTransGen R a x := by
  intro l a x hchain hx
  rcases List.mem_cons.mp hx with h | h
  · rw [h]
  · exact List.Chain.induction (Relation.ReflTransGen R a) l hchain
      (fun p q hpq hp => hp.tail hpq) Relation.ReflTransGen.refl x h

theorem cycle_of_mem_path (g : List (String × List String)) (root node : String)
    (path t : List String) (hW : path ++ [node] = root :: t)
    (hchain : List.Chain (KeyEdge g) root t) (hmem : node ∈ path) :
    CycleReachable g root := by
  obtain ⟨p1, p2, hsplit⟩ := List.append_of_mem hmem
  have hWsplit : root :: t = p1 ++ node :: (p2 ++ [node]) := by
    rw [← hW, hsplit]
    simp
  have hchainW : List.Chain' (KeyEdge g) (root :: t) := hchain
  have hsuffix : node :: (p2 ++ [node]) <:+ root :: t :=
    ⟨p1, by rw [hWsplit]⟩
  have hchainS : List.Chain (KeyEdge g) node (p2 ++ [node]) :=
    List.Chain'.suffix hchainW hsuffix
  have hreach : Relation.ReflTransGen (KeyEdge g) root node := by
    refine chain_mem_reflTransGen t root node hchain ?_
    rw [hWsplit]
    simp
  have htrans : Relation.TransGen (KeyEdge g) node node := by
    cases hps : p2 ++ [node] with
    | nil => simp at hps
    | cons c rest =>
      rw [hps] at hchainS
      have hedge : KeyEdge g node c := (List.chain_cons.mp hchainS).1
      have hchainT : List.Chain (KeyEdge g) c rest := (List.chain_cons.mp hchainS).2
      have hlastq : (c :: rest).getLast? = some node := by
        rw [← hps]
        exact List.getLast?_concat _
      have hlast : (c :: rest).getLast (by simp) = node := by
        have h2 := List.getLast?_eq_getLast (c :: rest) (by simp)
        rw [h2] at hlastq
        exact Option.some.inj hlastq
      exact Relation.TransGen.head' hedge
        (List.relationReflTransGen_of_exists_chain rest hchainT hlast)
  exact ⟨node, hreach, htrans⟩

theorem dfs_sound (g : List (String × List String)) (root : String) :
    ∀ (fuel : Nat) (node : String) (path : List String) (s : DfsState),
      s.visiting = path →
      (∃ t, path ++ [node] = root :: t ∧ List.Chain (KeyEdge g) root t) →
      ((dfsDetect g fuel node path s).cycles = s.cycles ∨ CycleReachable g root) := by
  intro fuel
  induction fuel with
  | zero => intro node path s _ _; left; rfl
  | succ f ih =>
    intro node path s hv hw
    obtain ⟨t, hW, hchain⟩ := hw
    by_cases h1 : node ∈ s.visiting
    · right
      exact cycle_of_mem_path g root node path t hW hchain (hv ▸ h1)
    · by_cases h2 : node ∈ s.visited
      · left; simp [dfsDetect, h1, h2]
      · have hkey : ∀ d, d ∈ (g.lookup node).getD [] →
            (g.lookup d).isSome = true → KeyEdge g node d := by
          intro d hd hg
          cases hlk : g.lookup node with
          | none => rw [hlk] at hd; simp at hd
          | some deps0 =>
            exact ⟨deps0, hlk, by rw [hlk] at hd; simpa using hd, hg⟩
        have hwalkd : ∀ d, KeyEdge g node d →
            ∃ t2, (path ++ [node]) ++ [d] = root :: t2
              ∧ List.Chain (KeyEdge g) root t2 := by
          intro d hKE
          refine ⟨t ++ [d], by simp [hW], ?_⟩
          have hlast2 : (root :: t).getLast? = some node := by
            rw [← hW]
            exact List.getLast?_concat _
          have hch : List.Chain' (KeyEdge g) ((root :: t) ++ [d]) := by
            rw [List.chain'_append]
            refine ⟨hchain, by simp, ?_⟩
            intro x hx y hy
            simp only [List.head?_cons, Option.mem_def, Option.some.injEq] at hy
            rw [hlast2] at hx
            simp only [Option.mem_def, Option.some.injEq] at hx
            rw [← hx, ← hy]
            exact hKE
          exact hch
        have hfold : ∀ (ds : List String) (acc : DfsState),
            acc.visiting = path ++ [node] →
            (∀ d ∈ ds, d ∈ (g.lookup node).getD []) →
            ((ds.foldl (fun acc dep =>
                if (g.lookup dep).isSome then dfsDetect g f dep (path ++ [node]) acc
                else acc) acc).cycles = acc.cycles ∨ CycleReachable g root) := by
          intro ds
          induction ds with
          | nil => intro acc _ _; left; rfl
          | cons d dsx ihds =>
            intro acc hacc hds
            simp only [List.foldl_cons]
            by_cases hg : (g.lookup d).isSome
            · simp only [hg, if_true]
              have hKE := hkey d (hds d (by simp)) hg
              have hwd := hwalkd d hKE
              have hstep := ih d (path ++ [node]) acc hacc hwd
              have hvis := (dfs_state g f d (path ++ [node]) acc).1
              have hrest := ihds (dfsDetect g f d (path ++ [node]) acc)
                (by rw [hvis, hacc]) (fun x hx => hds x (by simp [hx]))
              rcases hrest with hrest | hrest
              · rcases hstep with hstep | hstep
                · left; rw [hrest, hstep]
                · right; exact hstep
              · right; exact hrest
            · simp only [hg, Bool.false_eq_true, if_false]
              exact ihds acc hacc (fun x hx => hds x (by simp [hx]))
        simp only [dfsDetect, List.elem_eq_mem, decide_eq_true_eq]
        rw [if_neg h1, if_neg h2]
        have hmain := hfold ((g.lookup node).getD [])
          { s with visiting := s.visiting ++ [node] }
          (by simp [hv]) (fun d hd => hd)
        simpa using hmain

theorem mem_graphKeys (g : List (String × List String)) (a : String)
    (h : (g.lookup a).isSome = true) : a ∈ graphKeys g := by
  induction g with
  | nil => simp [List.lookup] at h
  | cons p rest ih =>
    obtain ⟨k, vs⟩ := p
    by_cases hk : a = k
    · simp [graphKeys, hk]
    · have hbeq : (a == k) = false := by simp [hk]
      rw [List.lookup, hbeq] at h
      simp only [graphKeys, List.map_cons, List.mem_cons]
      exact Or.inr (ih h)

theorem keysOutside_snoc_lt (g : List (String × List String))
    (vis : List String) (node : String)
    (hmem : node ∈ graphKeys g) (hnot : node ∉ vis) :
    keysOutside g (vis ++ [node]) < keysOutside g vis := by
  simp only [keysOutside]
  have hpoint : ∀ a, (!(vis ++ [node]).contains a) = true → (!vis.contains a) = true := by
    intro a ha
    simp only [Bool.not_eq_true'] at ha ⊢
    simp only [List.contains, List.elem_eq_mem, decide_eq_false_iff_not,
      List.mem_append, List.mem_singleton] at ha ⊢
    exact fun hx => ha (Or.inl hx)
  have hsub : List.Sublist
      ((graphKeys g).filter (fun k => !(vis ++ [node]).contains k))
      ((graphKeys g).filter (fun k => !vis.contains k)) :=
    List.monotone_filter_right _ hpoint
  refine Nat.lt_of_le_of_ne hsub.length_le (fun heq => ?_)
  have hEq := hsub.eq_of_length heq
  have hin : node ∈ (graphKeys g).filter (fun k => !vis.contains k) := by
    simp only [List.mem_filter, Bool.not_eq_true', List.contains,
      List.elem_eq_mem, decide_eq_false_iff_not]
    exact ⟨hmem, hnot⟩
  rw [← hEq] at hin
  simp [List.mem_filter] at hin

theorem keysOutside_mono (g : List (String × List String))
    (vis t : List String) :
    keysOutside g (vis ++ t) ≤ keysOutside g vis := by
  simp only [keysOutside]
  have hpoint : ∀ a, (!(vis ++ t).contains a) = true → (!vis.contains a) = true := by
    intro a ha
    simp only [Bool.not_eq_true'] at ha ⊢
    simp only [List.contains, List.elem_eq_mem, decide_eq_false_iff_not,
      List.mem_append] at ha ⊢
    exact fun hx => ha (Or.inl hx)
  exact (List.monotone_filter_right _ hpoint).length_le

theorem snoc_split {α : Type} (l l1 l2 : List α) (a u : α)
    (h : l ++ [a] = l1 ++ u :: l2) :
    (l1 = l ∧ u = a ∧ l2 = []) ∨ (∃ l2p, l2 = l2p ++ [a] ∧ l = l1 ++ u :: l2p) := by
  rcases List.eq_nil_or_concat l2 with h2 | ⟨l2p, b, hb⟩
  · subst h2
    obtain ⟨hl, hr⟩ := List.append_inj' h rfl
    exact Or.inl ⟨hl.symm, (List.cons.inj hr).1.symm, rfl⟩
  · subst hb
    have h' : l ++ [a] = (l1 ++ u :: l2p) ++ [b] := by
      rw [h]; simp
    obtain ⟨hl, hr⟩ := List.append_inj' h' rfl
    have hab : a = b := (List.cons.inj hr).1
    exact Or.inr ⟨l2p, by simp [hab, List.concat_eq_append], hl⟩

theorem fold_state (g : List (String × List String)) (f : Nat)
    (p1 : List String) :
    ∀ (ds : List String) (acc : DfsState),
      ((ds.foldl (fun acc dep =>
          if (g.lookup dep).isSome then dfsDetect g f dep p1 acc
          else acc) acc).visiting = acc.visiting
        ∧ (∃ t, (ds.foldl (fun acc dep =>
            if (g.lookup dep).isSome then dfsDetect g f dep p1 acc
            else acc) acc).visited = acc.visited ++ t)
        ∧ (∃ t, (ds.foldl (fun acc dep =>
            if (g.lookup dep).isSome then dfsDetect g f dep p1 acc
            else acc) acc).cycles = acc.cycles ++ t)) := by
  intro ds
  induction ds with
  | nil =>
    intro acc
    exact ⟨rfl, ⟨[], by simp⟩, ⟨[], by simp⟩⟩
  | cons d dsx ihd =>
    intro acc
    simp only [List.foldl_cons]
    by_cases hd : (g.lookup d).isSome
    · simp only [hd, if_true]
      obtain ⟨hv, ⟨t1, ht1⟩, ⟨t2, ht2⟩⟩ := ihd (dfsDetect g f d p1 acc)
      obtain ⟨hv0, ⟨t3, ht3⟩, ⟨t4, ht4⟩⟩ := dfs_state g f d p1 acc
      refine ⟨by rw [hv, hv0], ⟨t3 ++ t1, ?_⟩, ⟨t4 ++ t2, ?_⟩⟩
      · rw [ht1, ht3, List.append_assoc]
      · rw [ht2, ht4, List.append_assoc]
    · simp only [hd, Bool.false_eq_true, if_false]
      exact ihd acc

theorem visited_closed (g : List (String × List String)) (st : DfsState)
    (hgood : GoodState g st) :
    ∀ u v, u ∈ st.visited → KeyEdge g u v → v ∈ st.visited := by
  intro u v hu he
  obtain ⟨p1, p2, hsplit⟩ := List.append_of_mem hu
  have hv := hgood.2.2 p1 u p2 hsplit v he
  rw [hsplit]
  exact List.mem_append_left _ hv

theorem no_cycle_in_visited (g : List (String × List String)) (st : DfsState)
    (hgood : GoodState g st) :
    ∀ u ∈ st.visited, ¬ Relation.TransGen (KeyEdge g) u u := by
  suffices H : ∀ (k : Nat) (l1 : List String) (u : String) (l2 : List String),
      st.visited = l1 ++ u :: l2 → l1.length < k →
      ¬ Relation.TransGen (KeyEdge g) u u by
    intro u hu hcyc
    obtain ⟨p1, p2, hsplit⟩ := List.append_of_mem hu
    exact H (p1.length + 1) p1 u p2 hsplit (by omega) hcyc
  intro k
  induction k with
  | zero => intro l1 u l2 _ h; omega
  | succ n ihk =>
    intro l1 u l2 hsplit hlen hcyc
    obtain ⟨v, hedge, hRT⟩ := (Relation.TransGen.head'_iff).mp hcyc
    have hv1 : v ∈ l1 := hgood.2.2 l1 u l2 hsplit v hedge
    obtain ⟨a, b, hab⟩ := List.append_of_mem hv1
    have hsplit2 : st.visited = a ++ v :: (b ++ u :: l2) := by
      rw [hsplit, hab]; simp
    have hlen2 : a.length < n := by
      have : l1.length = a.length + 1 + b.length := by rw [hab]; simp; omega
      omega
    have hcyc2 : Relation.TransGen (KeyEdge g) v v :=
      Relation.TransGen.tail' hRT hedge
    exact ihk a v (b ++ u :: l2) hsplit2 hlen2 hcyc2

theorem dfs_nc (g : List (String × List String)) :
    ∀ (fuel : Nat) (node : String) (path : List String) (s : DfsState),
      keysOutside g s.visiting < fuel →
      (g.lookup node).isSome = true →
      GoodState g s →
      (dfsDetect g fuel node path s).cycles = s.cycles →
      GoodState g (dfsDetect g fuel node path s)
        ∧ node ∈ (dfsDetect g fuel node path s).visited := by
  intro fuel
  induction fuel with
  | zero => intro node path s hf _ _ _; exact absurd hf (Nat.not_lt_zero _)
  | succ f ih =>
    intro node path s hf hkey hgood hnc
    by_cases h1 : node ∈ s.visiting
    · exfalso
      simp only [dfsDetect, List.elem_eq_mem, decide_eq_true_eq] at hnc
      rw [if_pos h1] at hnc
      simp at hnc
    · by_cases h2 : node ∈ s.visited
      · have hres : dfsDetect g (f + 1) node path s = s := by
          simp [dfsDetect, h1, h2]
        rw [hres]
        exact ⟨hgood, h2⟩
      · have hmemk : node ∈ graphKeys g := mem_graphKeys g node hkey
        have hout1 : keysOutside g (s.visiting ++ [node]) < f := by
          have := keysOutside_snoc_lt g s.visiting node hmemk h1
          omega
        have hgood1 : GoodState g { s with visiting := s.visiting ++ [node] } := by
          refine ⟨hgood.1, ?_, hgood.2.2⟩
          intro x hx
          rcases List.mem_append.mp hx with hx | hx
          · exact hgood.2.1 x hx
          · rw [List.mem_singleton.mp hx]; exact h2
        have hres : dfsDetect g (f + 1) node path s =
            (let s1 : DfsState := { s with visiting := s.visiting ++ [node] }
             let s2 := ((g.lookup node).getD []).foldl (fun acc dep =>
               if (g.lookup dep).isSome then dfsDetect g f dep (path ++ [node]) acc
               else acc) s1
             { s2 with visiting := s2.visiting.erase node,
                       visited := s2.visited ++ [node] }) := by
          simp only [dfsDetect, List.elem_eq_mem, decide_eq_true_eq]
          rw [if_neg h1, if_neg h2]
        rw [hres] at hnc ⊢
        simp only at hnc ⊢
        have hfold : ∀ (ds : List String) (acc : DfsState),
            acc.visiting = s.visiting ++ [node] →
            GoodState g acc →
            (ds.foldl (fun acc dep =>
                if (g.lookup dep).isSome then dfsDetect g f dep (path ++ [node]) acc
                else acc) acc).cycles = acc.cycles →
            GoodState g (ds.foldl (fun acc dep =>
                if (g.lookup dep).isSome then dfsDetect g f dep (path ++ [node]) acc
                else acc) acc)
              ∧ (ds.foldl (fun acc dep =>
                  if (g.lookup dep).isSome then dfsDetect g f dep (path ++ [node]) acc
                  else acc) acc).visiting = acc.visiting
              ∧ (∃ t, (ds.foldl (fun acc dep =>
                  if (g.lookup dep).isSome then dfsDetect g f dep (path ++ [node]) acc
                  else acc) acc).visited = acc.visited ++ t)
              ∧ (∀ d ∈ ds, (g.lookup d).isSome = true →
                  d ∈ (ds.foldl (fun acc dep =>
                    if (g.lookup dep).isSome then dfsDetect g f dep (path ++ [node]) acc
                    else acc) acc).visited) := by
          intro ds
          induction ds with
          | nil =>
            intro acc _ hgacc _
            exact ⟨hgacc, rfl, ⟨[], by simp⟩, by simp⟩
          | cons d dsx ihds =>
            intro acc hacc hgacc hcyc
            simp only [List.foldl_cons] at hcyc ⊢
            by_cases hg : (g.lookup d).isSome
            · simp only [hg, if_true] at hcyc ⊢
              obtain ⟨t1, ht1⟩ := (dfs_state g f d (path ++ [node]) acc).2.2
              obtain ⟨t2, ht2⟩ :=
                (fold_state g f (path ++ [node]) dsx
                  (dfsDetect g f d (path ++ [node]) acc)).2.2
              have hnil : t1 = [] ∧ t2 = [] := by
                rw [ht2, ht1, List.append_assoc] at hcyc
                have hlen := congrArg List.length hcyc
                simp only [List.length_append] at hlen
                exact ⟨List.eq_nil_of_length_eq_zero (by omega),
                  List.eq_nil_of_length_eq_zero (by omega)⟩
              have hnc1 : (dfsDetect g f d (path ++ [node]) acc).cycles = acc.cycles := by
                rw [ht1, hnil.1, List.append_nil]
              have hnc2 : (dsx.foldl (fun acc dep =>
                  if (g.lookup dep).isSome then dfsDetect g f dep (path ++ [node]) acc
                  else acc) (dfsDetect g f d (path ++ [node]) acc)).cycles
                  = (dfsDetect g f d (path ++ [node]) acc).cycles := by
                rw [ht2, hnil.2, List.append_nil]
              have hfa : keysOutside g acc.visiting < f := by
                rw [hacc]; exact hout1
              obtain ⟨hgr1, hdr1⟩ := ih d (path ++ [node]) acc hfa hg hgacc hnc1
              have hvr1 : (dfsDetect g f d (path ++ [node]) acc).visiting = acc.visiting :=
                (dfs_state g f d (path ++ [node]) acc).1
              obtain ⟨t3, ht3⟩ := (dfs_state g f d (path ++ [node]) acc).2.1
              obtain ⟨hg1, hg2, ⟨t4, ht4⟩, hg4⟩ :=
                ihds (dfsDetect g f d (path ++ [node]) acc) (by rw [hvr1, hacc]) hgr1 hnc2
              refine ⟨hg1, by rw [hg2, hvr1],
                ⟨t3 ++ t4, by rw [ht4, ht3, List.append_assoc]⟩, ?_⟩
              intro x hx hgx
              rcases List.mem_cons.mp hx with hx | hx
              · rw [hx, ht4]
                exact List.mem_append_left _ hdr1
              · exact hg4 x hx hgx
            · simp only [hg, Bool.false_eq_true, if_false] at hcyc ⊢
              obtain ⟨hg1, hg2, hg3, hg4⟩ := ihds acc hacc hgacc hcyc
              refine ⟨hg1, hg2, hg3, ?_⟩
              intro x hx hgx
              rcases List.mem_cons.mp hx with hx | hx
              · rw [hx] at hgx; exact absurd hgx (by simpa using hg)
              · exact hg4 x hx hgx
        obtain ⟨hgs2, hvs2, ⟨tv, htv⟩, hmemdeps⟩ := hfold ((g.lookup node).getD [])
          { s with visiting := s.visiting ++ [node] } rfl hgood1
          (by dsimp only at hnc ⊢; exact hnc)
        have hvs2' : (((g.lookup node).getD []).foldl (fun acc dep =>
            if (g.lookup dep).isSome then dfsDetect g f dep (path ++ [node]) acc
            else acc) { s with visiting := s.visiting ++ [node] }).visiting
            = s.visiting ++ [node] := hvs2
        have hnodevis : node ∈ (((g.lookup node).getD []).foldl (fun acc dep =>
            if (g.lookup dep).isSome then dfsDetect g f dep (path ++ [node]) acc
            else acc) { s with visiting := s.visiting ++ [node] }).visiting := by
          rw [hvs2']; exact List.mem_append_right _ (by simp)
        have hnodenotvisited : node ∉ (((g.lookup node).getD []).foldl (fun acc dep =>
            if (g.lookup dep).isSome then dfsDetect g f dep (path ++ [node]) acc
            else acc) { s with visiting := s.visiting ++ [node] }).visited :=
          hgs2.2.1 node hnodevis
        have herase : (((g.lookup node).getD []).foldl (fun acc dep =>
            if (g.lookup dep).isSome then dfsDetect g f dep (path ++ [node]) acc
            else acc) { s with visiting := s.visiting ++ [node] }).visiting.erase node
            = s.visiting := by
          rw [hvs2', List.erase_append_right _ (by simpa using h1)]
          simp
        refine ⟨⟨?_, ?_, ?_⟩, ?_⟩
        · dsimp only
          rw [List.nodup_append]
          exact ⟨hgs2.1, List.nodup_singleton _,
            by simp only [List.disjoint_singleton]; exact hnodenotvisited⟩
        · dsimp only
          intro x hx
          rw [herase] at hx
          have hxvis : x ∈ (((g.lookup node).getD []).foldl (fun acc dep =>
              if (g.lookup dep).isSome then dfsDetect g f dep (path ++ [node]) acc
              else acc) { s with visiting := s.visiting ++ [node] }).visiting := by
            rw [hvs2']; exact List.mem_append_left _ hx
          have hx1 := hgs2.2.1 x hxvis
          have hx2 : x ≠ node := fun hEq => h1 (hEq ▸ hx)
          simp only [List.mem_append, List.mem_singleton]
          rintro (hc | hc)
          · exact hx1 hc
          · exact hx2 hc
        · dsimp only
          intro l1 u l2 hsp v hKE
          rcases snoc_split _ l1 l2 node u hsp with ⟨hl1, hu, hl2⟩ | ⟨l2p, hl2, hl⟩
          · rw [hu] at hKE
            obtain ⟨deps0, hlk, hvdep, hvkey⟩ := hKE
            have hvd : v ∈ (g.lookup node).getD [] := by
              rw [hlk]; simpa using hvdep
            have hv2 := hmemdeps v hvd hvkey
            rw [hl1]; exact hv2
          · exact hgs2.2.2 l1 u l2p hl v hKE
        · dsimp only
          exact List.mem_append_right _ (by simp)

theorem detectCycles_sound (g : List (String × List String)) (root : String)
    (h : detectCycles g root ≠ []) : CycleReachable g root := by
  rcases dfs_sound g root (g.length + 1) root [] {} rfl
      ⟨[], rfl, List.Chain.nil⟩ with hc | hc
  · exact absurd hc h
  · exact hc

theorem detectCycles_complete (g : List (String × List String)) (root : String)
    (hroot : (g.lookup root).isSome = true)
    (h : detectCycles g root = []) : ¬ CycleReachable g root := by
  have hfuel : keysOutside g ([] : List String) < g.length + 1 := by
    have h1 : keysOutside g [] ≤ (graphKeys g).length := List.length_filter_le _ _
    have h2 : (graphKeys g).length = g.length := by simp [graphKeys]
    omega
  obtain ⟨hgood, hrootmem⟩ := dfs_nc g (g.length + 1) root [] {} hfuel hroot
    ⟨List.nodup_nil, by simp, by intro l1 u l2 hx; simp at hx⟩ h
  rintro ⟨n, hreach, hcyc⟩
  have hn : n ∈ (dfsDetect g (g.length + 1) root [] {}).visited := by
    clear hcyc
    induction hreach with
    | refl => exact hrootmem
    | tail hab hbc ihh => exact visited_closed g _ hgood _ _ ihh hbc
  exact no_cycle_in_visited g _ hgood n hn hcyc

theorem build_eq (index : List (String × IndexEntry)) :
    buildDependencyGraph index = index.map (fun p => (p.1, gdeps p.2)) := rfl

theorem graph_lookup (index : List (String × IndexEntry)) (u : String) :
    (buildDependencyGraph index).lookup u = (index.lookup u).map gdeps := by
  induction index with
  | nil => rfl
  | cons p rest ih =>
    obtain ⟨k, e⟩ := p
    rw [build_eq] at *
    by_cases hk : u = k
    · have hbeq : (u == k) = true := by simp [hk]
      simp [List.lookup, hbeq]
    · have hbeq : (u == k) = false := by simp [hk]
      simp only [List.map_cons, List.lookup, hbeq]
      exact ih

theorem graph_key (index : List (String × IndexEntry)) (u : String) :
    ((buildDependencyGraph index).lookup u).isSome = (index.lookup u).isSome := by
  rw [graph_lookup]
  cases index.lookup u <;> rfl

theorem lookup_mem {β : Type} (l : List (String × β)) (a : String) (b : β)
    (h : l.lookup a = some b) : (a, b) ∈ l := by
  induction l with
  | nil => simp [List.lookup] at h
  | cons p rest ih =>
    obtain ⟨k, v⟩ := p
    by_cases hk : a = k
    · have hbeq : (a == k) = true := by simp [hk]
      rw [List.lookup, hbeq] at h
      simp only [Option.some.injEq] at h
      rw [← h, hk]
      exact List.mem_cons_self _ _
    · have hbeq : (a == k) = false := by simp [hk]
      rw [List.lookup, hbeq] at h
      exact List.mem_cons_of_mem _ (ih h)

theorem mem_gdeps (e : IndexEntry) (v : String) :
    v ∈ gdeps e ↔ ∃ d ∈ e.dependencies, depName d = some v ∧ v ≠ "" := by
  constructor
  · intro hv
    obtain ⟨d, hd, hfd⟩ := List.mem_filterMap.mp hv
    refine ⟨d, hd, ?_⟩
    cases hdn : depName d with
    | none => rw [hdn] at hfd; simp at hfd
    | some s =>
      rw [hdn] at hfd
      by_cases hs : s = ""
      · simp [hs] at hfd
      · simp only [hs, ne_eq, not_false_eq_true, if_true, Option.some.injEq] at hfd
        rw [← hfd]
        exact ⟨rfl, hs⟩
  · rintro ⟨d, hd, hdn, hne⟩
    exact List.mem_filterMap.mpr ⟨d, hd, by simp [hdn, hne]⟩

theorem closed_elim (index : List (String × IndexEntry))
    (hclosed : ClosedIndex index) (name : String) (entry : IndexEntry)
    (hlk : index.lookup name = some entry) (d : DepEntry)
    (hd : d ∈ entry.dependencies) (dn : String) (hdn : depName d = some dn)
    (hne : dn ≠ "") : (index.lookup dn).isSome = true := by
  have hp := hclosed (name, entry) (lookup_mem _ _ _ hlk) d hd
  rw [hdn] at hp
  simp only [Option.all] at hp
  rcases Bool.or_eq_true_iff.mp hp with h | h
  · exact absurd (by simpa using h) hne
  · exact h

theorem visit_nc (index : List (String × IndexEntry))
    (g : List (String × List String)) (root : String)
    (hgl : ∀ u, g.lookup u = (index.lookup u).map gdeps)
    (hclosed : ClosedIndex index)
    (hnocyc : ¬ CycleReachable g root) :
    ∀ (fuel : Nat) (name : String) (visited chain : List String),
      keysOutside g visited < fuel →
      (index.lookup name).isSome = true →
      Relation.ReflTransGen (KeyEdge g) root name →
      VisitGood g visited chain →
      ∃ v2 c2, visit index false fuel name (visited, chain) = .ok (v2, c2)
        ∧ VisitGood g v2 c2
        ∧ (∃ t, v2 = visited ++ t)
        ∧ (∃ t, c2 = chain ++ t)
        ∧ name ∈ v2
        ∧ (∀ x, (x ∈ v2 ∧ x ∉ c2) ↔ (x ∈ visited ∧ x ∉ chain))
        ∧ (∀ x ∈ c2, x ∉ chain →
            Relation.ReflTransGen (KeyEdge g) name x)
        ∧ (name ∉ visited → c2.getLast? = some name) := by
  intro fuel
  induction fuel with
  | zero => intro name visited chain hf _ _ _; exact absurd hf (Nat.not_lt_zero _)
  | succ f ih =>
    intro name visited chain hf hkey hreach hvg
    by_cases hmem : name ∈ visited
    · refine ⟨visited, chain, by simp [visit, hmem], hvg, ⟨[], by simp⟩,
        ⟨[], by simp⟩, hmem, fun x => Iff.rfl, ?_, ?_⟩
      · intro x hx hnx; exact absurd hx hnx
      · intro hx; exact absurd hmem hx
    · rcases Option.isSome_iff_exists.mp hkey with ⟨entry, hlk⟩
      have hkeyg : (g.lookup name).isSome = true := by
        rw [hgl name, hlk]; rfl
      have hmemk : name ∈ graphKeys g := mem_graphKeys g name hkeyg
      have hchainsub : ∀ x ∈ chain, x ∈ visited := hvg.2.1
      have hnamechain : name ∉ chain := fun hx => hmem (hchainsub name hx)
      have hout1 : keysOutside g (visited ++ [name]) < f := by
        have := keysOutside_snoc_lt g visited name hmemk hmem
        omega
      have hfold : ∀ (ds : List DepEntry), (∀ d ∈ ds, d ∈ entry.dependencies) →
          ∀ (v c : List String), VisitPack g name visited chain v c →
          ∃ vF cF,
            ds.foldl (fun acc dep =>
              match acc with
              | .error e => .error e
              | .ok st =>
                if false && depOptional dep && (depCondition dep).isSome then
                  .ok st
                else
                  match depName dep with
                  | some dn =>
                    if dn ≠ "" then visit index false f dn st else .ok st
                  | none => .ok st) (Except.ok (v, c)) = .ok (vF, cF)
            ∧ VisitPack g name visited chain vF cF
            ∧ (∃ t, vF = v ++ t)
            ∧ (∃ t, cF = c ++ t)
            ∧ (∀ d ∈ ds, ∀ dn, depName d = some dn → dn ≠ "" → dn ∈ vF) := by
        intro ds
        induction ds with
        | nil =>
          intro _ v c hpack
          refine ⟨v, c, by simp, hpack, ⟨[], by simp⟩, ⟨[], by simp⟩, by simp⟩
        | cons d dsx ihds =>
          intro hsub v c hpack
          simp only [List.foldl_cons, Bool.false_and, Bool.false_eq_true, if_false]
          rcases hdnd : depName d with _ | dn
          · obtain ⟨vF, cF, heq, hres⟩ :=
              ihds (fun x hx => hsub x (List.mem_cons_of_mem _ hx)) v c hpack
            refine ⟨vF, cF, heq, hres.1, hres.2.1, hres.2.2.1, ?_⟩
            intro d' hd' dn' hdn' hne'
            rcases List.mem_cons.mp hd' with hd' | hd'
            · rw [hd', hdnd] at hdn'; exact absurd hdn' (by simp)
            · exact hres.2.2.2 d' hd' dn' hdn' hne'
          · by_cases hne : dn = ""
            · rw [hne]
              simp only [ne_eq, not_true_eq_false, if_false]
              obtain ⟨vF, cF, heq, hres⟩ :=
                ihds (fun x hx => hsub x (List.mem_cons_of_mem _ hx)) v c hpack
              refine ⟨vF, cF, heq, hres.1, hres.2.1, hres.2.2.1, ?_⟩
              intro d' hd' dn' hdn' hne'
              rcases List.mem_cons.mp hd' with hd' | hd'
              · rw [hd', hdnd] at hdn'
                have : dn = dn' := by simpa using hdn'
                rw [← this] at hne'
                exact absurd hne hne'
              · exact hres.2.2.2 d' hd' dn' hdn' hne'
            · simp only [ne_eq, hne, not_false_eq_true, if_true]
              have hd0 : d ∈ entry.dependencies := hsub d (List.mem_cons_self _ _)
              have hkeydn : (index.lookup dn).isSome = true :=
                closed_elim index hclosed name entry hlk d hd0 dn hdnd hne
              have hKE : KeyEdge g name dn := by
                refine ⟨gdeps entry, by rw [hgl name, hlk]; rfl,
                  (mem_gdeps entry dn).mpr ⟨d, hd0, hdnd, hne⟩, ?_⟩
                rcases Option.isSome_iff_exists.mp hkeydn with ⟨e2, he2⟩
                rw [hgl dn, he2]; rfl
              obtain ⟨t0, ht0⟩ := hpack.2.1
              have hfuel2 : keysOutside g v < f := by
                rw [ht0]
                have := keysOutside_mono g (visited ++ [name]) t0
                omega
              obtain ⟨v', c', heq', hvg', ⟨tv, htv⟩, ⟨tc, htc⟩, hdnin, hgrey',
                hreach', hlast'⟩ :=
                ih dn v c hfuel2 hkeydn (hreach.tail hKE) hpack.1
              rw [heq']
              have hpack' : VisitPack g name visited chain v' c' := by
                obtain ⟨hvgp, ⟨t1, ht1⟩, ⟨t2, ht2⟩, hgreyp, hreachp⟩ := hpack
                refine ⟨hvg', ⟨t1 ++ tv, by rw [htv, ht1, List.append_assoc]⟩,
                  ⟨t2 ++ tc, by rw [htc, ht2, List.append_assoc]⟩, ?_, ?_⟩
                · intro x
                  exact (hgrey' x).trans (hgreyp x)
                · intro x hx hnx
                  by_cases hxc : x ∈ c
                  · exact hreachp x hxc hnx
                  · exact Relation.ReflTransGen.head hKE (hreach' x hx hxc)
              obtain ⟨vF, cF, heqF, hpackF, ⟨tvF, htvF⟩, ⟨tcF, htcF⟩, hmemF⟩ :=
                ihds (fun x hx => hsub x (List.mem_cons_of_mem _ hx)) v' c' hpack'
              refine ⟨vF, cF, heqF, hpackF,
                ⟨tv ++ tvF, by rw [htvF, htv, List.append_assoc]⟩,
                ⟨tc ++ tcF, by rw [htcF, htc, List.append_assoc]⟩, ?_⟩
              intro d' hd' dn' hdn' hne'
              rcases List.mem_cons.mp hd' with hd' | hd'
              · rw [hd', hdnd] at hdn'
                have hdd : dn = dn' := by simpa using hdn'
                rw [← hdd, htvF]
                exact List.mem_append_left _ hdnin
              · exact hmemF d' hd' dn' hdn' hne'
      have hpack0 : VisitPack g name visited chain (visited ++ [name]) chain := by
        refine ⟨⟨hvg.1, ?_, ?_⟩, ⟨[], by simp⟩, ⟨[], by simp⟩, ?_, ?_⟩
        · intro x hx
          exact List.mem_append_left _ (hchainsub x hx)
        · intro l1 u l2 hsp v hKE
          rcases hvg.2.2 l1 u l2 hsp v hKE with h | ⟨hq1, hq2⟩
          · exact Or.inl h
          · exact Or.inr ⟨List.mem_append_left _ hq1, hq2⟩
        · intro x
          constructor
          · rintro ⟨hx1, hx2⟩
            rcases List.mem_append.mp hx1 with h | h
            · exact ⟨Or.inl h, hx2⟩
            · exact ⟨Or.inr (List.mem_singleton.mp h), hx2⟩
          · rintro ⟨hx1, hx2⟩
            rcases hx1 with h | h
            · exact ⟨List.mem_append_left _ h, hx2⟩
            · exact ⟨by rw [h]; exact List.mem_append_right _ (by simp), hx2⟩
        · intro x hx hnx
          exact absurd hx hnx
      obtain ⟨vF, cF, heqF, hpackF, _, _, hmemdeps⟩ :=
        hfold entry.dependencies (fun d hd => hd) (visited ++ [name]) chain hpack0
      obtain ⟨hvgF, ⟨tF, htF⟩, ⟨tcF, htcF⟩, hgreyF, hreachF⟩ := hpackF
      have hnameinvF : name ∈ vF := by
        rw [htF]
        exact List.mem_append_left _ (List.mem_append_right _ (by simp))
      have hnamenotcF : name ∉ cF :=
        ((hgreyF name).mpr ⟨Or.inr rfl, hnamechain⟩).2
      refine ⟨vF, cF ++ [name], ?_, ⟨?_, ?_, ?_⟩,
        ⟨[name] ++ tF, by rw [htF, List.append_assoc]⟩,
        ⟨tcF ++ [name], by rw [htcF, List.append_assoc]⟩,
        hnameinvF, ?_, ?_, fun _ => List.getLast?_concat _⟩
      · simp only [visit, List.elem_eq_mem, decide_eq_true_eq]
        rw [if_neg hmem, hlk]
        dsimp only
        rw [heqF]
      · rw [List.nodup_append]
        exact ⟨hvgF.1, List.nodup_singleton _,
          by simp only [List.disjoint_singleton]; exact hnamenotcF⟩
      · intro x hx
        rcases List.mem_append.mp hx with h | h
        · exact hvgF.2.1 x h
        · rw [List.mem_singleton.mp h]
          exact hnameinvF
      · intro l1 u l2 hsp v hKE
        have hKE' := hKE
        rcases snoc_split cF l1 l2 name u hsp with ⟨hl1, hu, _⟩ | ⟨l2p, hl2, hl⟩
        · rw [hu] at hKE hKE'
          obtain ⟨deps0, hlkg, hvdeps, hvkey⟩ := hKE
          have hdeq : deps0 = gdeps entry := by
            have : some deps0 = some (gdeps entry) := by
              rw [← hlkg, hgl name, hlk]; rfl
            exact Option.some.inj this
          rw [hdeq] at hvdeps
          obtain ⟨d, hd, hdn, hne⟩ := (mem_gdeps entry v).mp hvdeps
          have hvF : v ∈ vF := hmemdeps d hd v hdn hne
          by_cases hvc : v ∈ cF
          · rw [hl1]
            exact Or.inl hvc
          · rcases ((hgreyF v).mp ⟨hvF, hvc⟩).1 with hv | hv
            · refine Or.inr ⟨hvF, ?_⟩
              simp only [List.mem_append, List.mem_singleton]
              rintro (hc | hc)
              · exact hvc hc
              · rw [hc] at hv; exact hmem hv
            · exfalso
              rw [hv] at hKE'
              exact hnocyc ⟨name, hreach, Relation.TransGen.single hKE'⟩
        · rcases hvgF.2.2 l1 u l2p hl v hKE with h | ⟨hq1, hq2⟩
          · exact Or.inl h
          · rcases ((hgreyF v).mp ⟨hq1, hq2⟩).1 with hv | hv
            · refine Or.inr ⟨hq1, ?_⟩
              simp only [List.mem_append, List.mem_singleton]
              rintro (hc | hc)
              · exact hq2 hc
              · rw [hc] at hv; exact hmem hv
            · exfalso
              rw [hv] at hKE hKE'
              have hucF : u ∈ cF := by rw [hl]; simp
              by_cases huc : u ∈ chain
              · obtain ⟨a, b, hab⟩ := List.append_of_mem huc
                rcases hvg.2.2 a u b hab name hKE with hna | ⟨hna, _⟩
                · exact hnamechain (by rw [hab]; exact List.mem_append_left _ hna)
                · exact hmem hna
              · have hru := hreachF u hucF huc
                exact hnocyc ⟨name, hreach, Relation.TransGen.tail' hru hKE⟩
      · intro x
        constructor
        · rintro ⟨hx1, hx2⟩
          simp only [List.mem_append, List.mem_singleton] at hx2
          push_neg at hx2
          rcases ((hgreyF x).mp ⟨hx1, hx2.1⟩).1 with hv | hv
          · exact ⟨hv, ((hgreyF x).mp ⟨hx1, hx2.1⟩).2⟩
          · exact absurd hv hx2.2
        · rintro ⟨hx1, hx2⟩
          have hg := (hgreyF x).mpr ⟨Or.inl hx1, hx2⟩
          refine ⟨hg.1, ?_⟩
          simp only [List.mem_append, List.mem_singleton]
          rintro (hc | hc)
          · exact hg.2 hc
          · rw [hc] at hx1; exact hmem hx1
      · intro x hx hnx
        rcases List.mem_append.mp hx with h | h
        · exact hreachF x h hnx
        · rw [List.mem_singleton.mp h]

/-- Claim C4, corrected: over a closed index (every truthy dependency
name of every entry is itself an index key) and a root present in the
index, resolution never throws; it reports a nonempty `errors` list
exactly when a dependency cycle is reachable from the root along
followed edges; and with no cycle the returned chain has no
duplicates, ends with the requested scenario, and every listed
dependency of a listed scenario precedes its dependent.  (On an index
with a dangling reference the code instead throws a TypeError: see the
counterexample.) -/
theorem claim_C4 :
    ∀ (index : List (String × IndexEntry)) (root : String),
      ClosedIndex index →
      (index.lookup root).isSome = true →
      ∃ r, resolveDependencies root index false = .ok r
        ∧ (r.errors ≠ [] ↔ CycleReachable (buildDependencyGraph index) root)
        ∧ (r.errors = [] →
            r.chain.Nodup
              ∧ r.chain.getLast? = some root
              ∧ ∀ (l1 : List String) (u : String) (l2 : List String),
                  r.chain = l1 ++ u :: l2 →
                  ∀ entry, index.lookup u = some entry →
                  ∀ dep ∈ entry.dependencies, ∀ dn, depName dep = some dn →
                    dn ≠ "" → dn ∈ r.chain → dn ∈ l1) := by
  intro index root hclosed hroot
  rcases Option.isSome_iff_exists.mp hroot with ⟨e0, hlk0⟩
  by_cases hcyc : detectCycles (buildDependencyGraph index) root = []
  · have hnocyc : ¬ CycleReachable (buildDependencyGraph index) root :=
      detectCycles_complete _ root (by rw [graph_key]; exact hroot) hcyc
    have hfuel : keysOutside (buildDependencyGraph index) [] < visitFuelBound index := by
      have h1 : keysOutside (buildDependencyGraph index) []
          ≤ (graphKeys (buildDependencyGraph index)).length :=
        List.length_filter_le _ _
      have h2 : (graphKeys (buildDependencyGraph index)).length = index.length := by
        simp [graphKeys, build_eq]
      simp only [visitFuelBound]
      omega
    obtain ⟨v2, c2, heq, hvg2, _, _, hrootin, hgrey2, _, hlast⟩ :=
      visit_nc index (buildDependencyGraph index) root
        (graph_lookup index) hclosed hnocyc
        (visitFuelBound index) root [] [] hfuel hroot Relation.ReflTransGen.refl
        ⟨List.nodup_nil, by simp, by intro l1 u l2 hx; simp at hx⟩
    refine ⟨{ graph := buildDependencyGraph index, chain := c2 }, ?_, ?_, ?_⟩
    · simp only [resolveDependencies, hlk0, Option.isNone_some, Bool.false_eq_true,
        if_false, hcyc, List.isEmpty_nil, Bool.not_true, heq]
    · constructor
      · intro h; exact absurd rfl h
      · intro h; exact absurd h hnocyc
    · intro _
      refine ⟨hvg2.1, hlast (by simp), ?_⟩
      intro l1 u l2 hsp entry hlken dep hdep dn hdn hne _
      have hKE : KeyEdge (buildDependencyGraph index) u dn := by
        refine ⟨gdeps entry, by rw [graph_lookup index u, hlken]; rfl,
          (mem_gdeps entry dn).mpr ⟨dep, hdep, hdn, hne⟩, ?_⟩
        rw [graph_key]
        exact closed_elim index hclosed u entry hlken dep hdep dn hdn hne
      rcases hvg2.2.2 l1 u l2 hsp dn hKE with h | ⟨h1, h2⟩
      · exact h
      · exact absurd ((hgrey2 dn).mp ⟨h1, h2⟩).1 (by simp)
  · have hcycR : CycleReachable (buildDependencyGraph index) root :=
      detectCycles_sound _ root hcyc
    have hne : (detectCycles (buildDependencyGraph index) root).isEmpty = false := by
      cases h : detectCycles (buildDependencyGraph index) root with
      | nil => exact absurd h hcyc
      | cons a l => rfl
    refine ⟨{ graph := buildDependencyGraph index
              cycles := detectCycles (buildDependencyGraph index) root
              errors := ["Circular dependencies detected: "
                ++ String.intercalate ", "
                  ((detectCycles (buildDependencyGraph index) root).map
                    (String.intercalate " → "))] }, ?_, ?_, ?_⟩
    · simp only [resolveDependencies, hlk0, Option.isNone_some, Bool.false_eq_true,
        if_false, hne, Bool.not_false, if_true]
    · exact ⟨fun _ => hcycR, fun _ => by simp⟩
    · intro h
      exact absurd h (by simp)

/-- Counterexample to claim C4 as written: on an index whose single
scenario references a missing dependency there is no reachable cycle,
yet resolution does not return a chain — reading the dependencies of
the missing scenario throws a TypeError. -/
theorem claim_C4_counterexample :
    resolveDependencies "A" danglingIndex false = .error .typeError
      ∧ ¬ CycleReachable (buildDependencyGraph danglingIndex) "A" := by
  constructor
  · rfl
  · exact detectCycles_complete _ _ (by decide) (by decide)

/-- Witness for claim C4: the two-scenario checkout index is closed,
holds the requested scenario, and the amended claim applies to it. -/
theorem claim_C4_witness :
    ClosedIndex checkoutIndex
      ∧ (checkoutIndex.lookup "checkout_flow").isSome = true
      ∧ ∃ r, resolveDependencies "checkout_flow" checkoutIndex false = .ok r
        ∧ (r.errors ≠ []
            ↔ CycleReachable (buildDependencyGraph checkoutIndex) "checkout_flow")
        ∧ (r.errors = [] →
            r.chain.Nodup
              ∧ r.chain.getLast? = some "checkout_flow"
              ∧ ∀ (l1 : List String) (u : String) (l2 : List String),
                  r.chain = l1 ++ u :: l2 →
                  ∀ entry, checkoutIndex.lookup u = some entry →
                  ∀ dep ∈ entry.dependencies, ∀ dn, depName dep = some dn →
                    dn ≠ "" → dn ∈ r.chain → dn ∈ l1) :=
  ⟨by decide, by decide,
    claim_C4 checkoutIndex "checkout_flow" (by decide) (by decide)⟩

/-- Witness for claim C3 at a concrete document carrying an unknown
field and its own version and creation date. -/
theorem claim_C3_witness :
    Fixtures.extraFieldDoc.name = some "a" ∧ "a" ≠ ""
      ∧ Fixtures.extraFieldDoc.chain ≠ none
      ∧ loadScenario (saveScenario Fixtures.extraFieldDoc "t0"
            Fixtures.checkoutStorage).2 "a" false
        = some { name := some "a"
                 metadata := some {}
                 chain := some []
                 version := some "1.0"
                 createdAt := some "t0"
                 secrets := none
                 extra := [] } :=
  ⟨rfl, by decide, by decide,
    claim_C3 Fixtures.extraFieldDoc "t0" Fixtures.checkoutStorage "a" rfl
      (by decide) (by decide)⟩

/-- Witness for claim C5 at an element whose id is a safe identifier
and belongs to exactly one node of a two-node document. -/
theorem claim_C5_witness :
    Fixtures.idInfo.id = some "box" ∧ isSafeIdent "box" = true
      ∧ [Fixtures.boxDiv, Fixtures.fooDiv1].filter
          (fun d => d.id = some "box") = [Fixtures.boxDiv]
      ∧ (generateSelector Fixtures.idInfo).primary = "#" ++ "box"
      ∧ querySelectorAll [Fixtures.boxDiv, Fixtures.fooDiv1]
          ((generateSelector Fixtures.idInfo).primary) = [Fixtures.boxDiv] :=
  ⟨rfl, by decide, by decide,
    (claim_C5 Fixtures.idInfo [Fixtures.boxDiv, Fixtures.fooDiv1]
      Fixtures.boxDiv "box" rfl (by decide) (by decide)).1,
    (claim_C5 Fixtures.idInfo [Fixtures.boxDiv, Fixtures.fooDiv1]
      Fixtures.boxDiv "box" rfl (by decide) (by decide)).2⟩

end ClaimTheorems
